import Mathlib

/-!
Shallow embedding of `graphscraper` (file `src/graphscraper/base.py`, with the
database object model of `src/graphscraper/db.py`) in Lean 4.

Modelling choices, stated once:

* Python dictionaries (`NodeList._nodes`, `NodeList._node_name_map`,
  `EdgeList._edges`, `Node._neighbors`) are modelled as insertion-ordered
  association lists: lookup returns the first matching key, insertion replaces
  the first matching entry in place or appends a fresh key at the end, exactly
  like a CPython dict.
* Python objects are mutable and shared; the in-memory `Node` objects are
  owned by the `NodeList`, so the registry (`GState.nodes`, keyed by the node
  index) is used as the heap for node objects.  `NodeList._node_name_map`
  stores the node's index, standing for a reference to the same object.
  An `Edge` stores the immutable part of its endpoints (`NodeRef`).
* A raised Python exception is an `Except` error value.  Because mutations of
  the global state performed before a `raise` survive the exception, errors
  carry the state at the raise point: `Except (PyErr × GState) _`.
* The database session of `db.py` is modelled by the record lists
  `GState.dbNodes` / `GState.dbEdges`; `session.commit()` is the durability
  boundary and is a no-op on this committed-state view (the model performs the
  session's writes at the point the code performs them, and the code of
  `base.py` always commits right after the write it performs).
* Python `str.strip()`, `str <` and `sorted(...)` are modelled by the
  structurally recursive functions `pyStrip`, `pyStrLt` and `pySorted`
  (a stable insertion sort, matching Python's stable sort).
* `float` weights are modelled by `ℚ`; no floating-point arithmetic is
  performed by the code, it only compares weights with `<=`/`!=` and stores
  them.
* `isinstance` checks on `Node` arguments cannot fail in the typed embedding;
  the corresponding `TypeError` branches are therefore not represented.  The
  weight check of `Edge.__init__` is representable and kept.
-/

/-! ## Association-list model of Python dictionaries -/

/-- Python `dict.get`: first entry with the given key. -/
def dget {K V : Type} [DecidableEq K] (d : List (K × V)) (k : K) : Option V :=
  match d with
  | [] => none
  | (k', v) :: rest => if k' = k then some v else dget rest k

/-- Python `dict[k] = v`: replace the first entry with the key in place,
or append a fresh key at the end (CPython insertion order). -/
def dput {K V : Type} [DecidableEq K] (d : List (K × V)) (k : K) (v : V) :
    List (K × V) :=
  match d with
  | [] => [(k, v)]
  | (k', v') :: rest => if k' = k then (k, v) :: rest else (k', v') :: dput rest k v

/-- Update the first entry with the given key in place (mutating a field of
the object stored there); no effect if the key is absent. -/
def dupd {K V : Type} [DecidableEq K] (d : List (K × V)) (k : K) (f : V → V) :
    List (K × V) :=
  match d with
  | [] => []
  | (k', v) :: rest => if k' = k then (k', f v) :: rest else (k', v) :: dupd rest k f

/-! ## Python string primitives -/

/-- Python `str.strip()` on a character list: drop whitespace at both ends. -/
def stripList (l : List Char) : List Char :=
  ((l.dropWhile Char.isWhitespace).reverse.dropWhile Char.isWhitespace).reverse

/-- Python `str.strip()`. -/
def pyStrip (s : String) : String := String.mk (stripList s.toList)

/-- Python `<` on strings: lexicographic on code points. -/
def strLtB : List Char → List Char → Bool
  | [], [] => false
  | [], _ :: _ => true
  | _ :: _, [] => false
  | a :: as, b :: bs => if a < b then true else if b < a then false else strLtB as bs

/-- Python `<` on strings. -/
def pyStrLt (a b : String) : Bool := strLtB a.toList b.toList

/-! ## Stable sort (Python `sorted`) -/

/-- Insert into a sorted list, before the first element it is `le`-below-or-
equal to; together with `pySorted` this is a stable sort like Python's. -/
def sinsert {α : Type} (le : α → α → Bool) (x : α) : List α → List α
  | [] => [x]
  | y :: ys => if le x y then x :: y :: ys else y :: sinsert le x ys

/-- Python `sorted(l, key=...)` with the comparison baked into `le`. -/
def pySorted {α : Type} (le : α → α → Bool) : List α → List α
  | [] => []
  | x :: xs => sinsert le x (pySorted le xs)

/-! ## Data model -/

/-- A raised Python exception (the classes raised by `base.py` / `db.py`). -/
inductive PyErr : Type where
  | valueError (msg : String)
  | typeError (msg : String)
  | attributeError
  | extSourceError
deriving DecidableEq, Repr

/-- The immutable identity of an in-memory `Node` set by `Node.__init__`:
`_index`, `name`, and the stripped `external_id`. -/
structure NodeRef : Type where
  index : ℕ
  name : String
  externalId : Option String
deriving DecidableEq, Repr

/-- An `Edge` object: the two endpoint nodes and the weight
(`Edge._source`, `Edge._target`, `Edge._weight`). -/
structure EdgeR : Type where
  source : NodeRef
  target : NodeRef
  weight : ℚ
deriving DecidableEq, Repr

/-- `Edge.key`: `(self._source.index, self._target.index)`. -/
def EdgeR.key (e : EdgeR) : ℕ × ℕ := (e.source.index, e.target.index)

/-- The full state of an in-memory `Node` object: its identity plus the
mutable fields `_are_neighbors_loaded`, `are_neighbors_cached` and
`_neighbors`. -/
structure NodeSt : Type where
  ref : NodeRef
  areNeighborsLoaded : Bool
  areNeighborsCached : Bool
  neighbors : List ((ℕ × ℕ) × EdgeR)
deriving DecidableEq, Repr

/-- A committed `DBNode` record (`db.py`): `name`, `external_id`,
`are_neighbors_cached`. -/
structure DBNodeR : Type where
  name : String
  externalId : Option String
  areNeighborsCached : Bool
deriving DecidableEq, Repr

/-- A committed `DBEdge` record (`db.py`): names stored in canonical order
(`source_name < target_name`) by the constructor, plus the weight. -/
structure DBEdgeR : Type where
  sourceName : String
  targetName : String
  weight : ℚ
deriving DecidableEq, Repr

/-- The whole mutable state: the graph's `NodeList._nodes` (index → node
object), `NodeList._node_name_map` (name → node object, stored as the node's
index), `EdgeList._edges`, and the committed database tables. -/
structure GState : Type where
  nodes : List (ℕ × NodeSt)
  nodeNameMap : List (String × ℕ)
  edges : List ((ℕ × ℕ) × EdgeR)
  dbNodes : List DBNodeR
  dbEdges : List DBEdgeR
deriving DecidableEq, Repr

/-- A `Graph` freshly constructed over an empty database. -/
def GState.empty : GState := ⟨[], [], [], [], []⟩

/-! ## Database object model (`db.py`) -/

/-- `DBNode.find_by_name`: `query.filter_by(name=node_name).first()`. -/
def dbFindNode (db : List DBNodeR) (name : String) : Option DBNodeR :=
  db.find? (fun r => r.name = name)

/-- The statement `db_node.are_neighbors_cached = True` of
`Node._load_neighbors`: mutate the first record with the given name. -/
def dbSetNodeCached : List DBNodeR → String → List DBNodeR
  | [], _ => []
  | r :: rest, nm =>
      if r.name = nm then { r with areNeighborsCached := true } :: rest
      else r :: dbSetNodeCached rest nm

/-- `DBEdge.find_by_name`: looks the pair up in canonical order
(the lexicographically smaller name first). -/
def dbFindEdge (db : List DBEdgeR) (a b : String) : Option DBEdgeR :=
  if pyStrLt a b then db.find? (fun e => e.sourceName = a ∧ e.targetName = b)
  else db.find? (fun e => e.sourceName = b ∧ e.targetName = a)

/-- `DBEdge.__init__`: rejects a `None`/equal name pair (names are typed
non-null here) and stores the pair in canonical order. -/
def dbEdgeNew (a b : String) (w : ℚ) : Except PyErr DBEdgeR :=
  if a = b then
    .error (.valueError "Invalid source and target name pair")
  else if pyStrLt a b then .ok ⟨a, b, w⟩
  else .ok ⟨b, a, w⟩

/-- The statement `db_edge.weight = weight` of `EdgeList.add_edge`:
mutate the first record with the given canonical name pair. -/
def dbSetEdgeWeight : List DBEdgeR → String × String → ℚ → List DBEdgeR
  | [], _, _ => []
  | e :: rest, key, w =>
      if e.sourceName = key.1 ∧ e.targetName = key.2 then
        { e with weight := w } :: rest
      else e :: dbSetEdgeWeight rest key w

/-- The canonical key under which `DBEdge.find_by_name` looks a pair up. -/
def dbCanonKey (a b : String) : String × String :=
  if pyStrLt a b then (a, b) else (b, a)

/-- `DBNode.neighbors`: the `DBNode` records reached through edges where this
node is the target, followed by those where it is the source (the order the
property builds its result in). -/
def dbNeighbors (s : GState) (name : String) : List DBNodeR :=
  ((s.dbEdges.filter (fun e => e.targetName = name)).filterMap
      (fun e => dbFindNode s.dbNodes e.sourceName)) ++
  ((s.dbEdges.filter (fun e => e.sourceName = name)).filterMap
      (fun e => dbFindNode s.dbNodes e.targetName))

/-! ## `Node.add_neighbor` -/

/-- `Node.add_neighbor(edge)`.  Operates on the calling node's identity and
its `_neighbors` dictionary; returns the new dictionary together with the
neighbors for which a `NeighborAddedEvent` was dispatched. -/
def add_neighbor (self : NodeRef) (nbrs : List ((ℕ × ℕ) × EdgeR))
    (edge : Option EdgeR) :
    Except PyErr (List ((ℕ × ℕ) × EdgeR) × List NodeRef) :=
  match edge with
  | none => .ok (nbrs, [])
  | some e =>
    if e.source ≠ self ∧ e.target ≠ self then .ok (nbrs, [])
    else
      let other? : Except PyErr NodeRef :=
        if e.source = self then .ok e.target
        else if e.target = self then .ok e.source
        else .error (.valueError "Tried to add a neighbor with an invalid edge.")
      match other? with
      | .error err => .error err
      | .ok other =>
        let key := e.key
        -- `if self._neighbors.get(edge_key) or self._neighbors.get(reversed)`
        if (dget nbrs key).isSome ∨ (dget nbrs (key.2, key.1)).isSome then
          .ok (nbrs, [])
        else
          .ok (dput nbrs key e, [other])

/-- Mutate the node object at the given index. -/
def updateNode (s : GState) (i : ℕ) (f : NodeSt → NodeSt) : GState :=
  { s with nodes := dupd s.nodes i f }

/-- Apply `add_neighbor` to the node object stored at index `i`.  A node
reference that is not (or no longer) in the registry has no observable effect
through the registry; every resolution in this development addresses
registered nodes. -/
def stateAddNeighbor (s : GState) (i : ℕ) (e : EdgeR) :
    Except (PyErr × GState) GState :=
  match dget s.nodes i with
  | none => .ok s
  | some nd =>
    match add_neighbor nd.ref nd.neighbors (some e) with
    | .error err => .error (err, s)
    | .ok (nbrs', _events) =>
        .ok (updateNode s i (fun n => { n with neighbors := nbrs' }))

/-! ## `Edge.__init__` and the `EdgeList` -/

/-- `Edge.__init__(source, target, weight)`: validates the weight and the
no-loop condition, then registers the edge on both endpoints
(`source.add_neighbor(self)`, `target.add_neighbor(self)`). -/
def edgeInit (s : GState) (source target : NodeRef) (weight : ℚ) :
    Except (PyErr × GState) (GState × EdgeR) :=
  if weight ≤ 0 then .error (.typeError "Invalid edge weight", s)
  else if source.index = target.index then
    .error (.valueError "Creating a loop edge is not allowed.", s)
  else
    let e : EdgeR := ⟨source, target, weight⟩
    match stateAddNeighbor s source.index e with
    | .error err => .error err
    | .ok s₁ =>
      match stateAddNeighbor s₁ target.index e with
      | .error err => .error err
      | .ok s₂ => .ok (s₂, e)

/-- `EdgeList.get_edge_by_index`: try the key, then the reversed key. -/
def get_edge_by_index (edges : List ((ℕ × ℕ) × EdgeR)) (i j : ℕ) :
    Option EdgeR :=
  match dget edges (i, j) with
  | some e => some e
  | none => dget edges (j, i)

/-- `EdgeList.add_edge(source, target, weight, save_to_cache)`. -/
def add_edge (s : GState) (source target : NodeRef) (weight : ℚ)
    (saveToCache : Bool) : Except (PyErr × GState) GState :=
  if source.index = target.index ∨
      (get_edge_by_index s.edges source.index target.index).isSome then
    .ok s
  else
    match edgeInit s source target weight with
    | .error err => .error err
    | .ok (s₁, e) =>
      let s₂ := { s₁ with edges := dput s₁.edges (source.index, target.index) e }
      if saveToCache then
        match dbFindEdge s₂.dbEdges source.name target.name with
        | none =>
          match dbEdgeNew source.name target.name weight with
          | .error err => .error (err, s₂)
          | .ok rec' =>
              -- session.add + commit
              .ok { s₂ with dbEdges := s₂.dbEdges ++ [rec'] }
        | some dbe =>
          if dbe.weight ≠ weight then
            -- db_edge.weight = weight; commit
            let db' := dbSetEdgeWeight s₂.dbEdges
              (dbCanonKey source.name target.name) weight
            .ok { s₂ with dbEdges := db' }
          else
            -- should_commit stays False
            .ok s₂
      else .ok s₂

/-- `EdgeList.edge_list`: `sorted(self._edges.values(), key=attrgetter("key"))`;
Python compares the key tuples lexicographically. -/
def keyLeB (p q : ℕ × ℕ) : Bool :=
  decide (p.1 < q.1 ∨ (p.1 = q.1 ∧ p.2 ≤ q.2))

/-- `EdgeList.edge_list`. -/
def edge_list (edges : List ((ℕ × ℕ) × EdgeR)) : List EdgeR :=
  pySorted (fun a b => keyLeB a.key b.key) (edges.map Prod.snd)

/-- `EdgeList.get_edge(source, target)`. -/
def get_edge (s : GState) (source target : NodeRef) : Option EdgeR :=
  get_edge_by_index s.edges source.index target.index

/-- `Graph.add_edge(source, target, weight, save_to_cache)`: guarded
pass-through to `EdgeList.add_edge`. -/
def graph_add_edge (s : GState) (source target : NodeRef) (weight : ℚ)
    (saveToCache : Bool) : Except (PyErr × GState) GState :=
  if (get_edge s source target).isSome then .ok s
  else add_edge s source target weight saveToCache

/-! ## The `NodeList` -/

/-- The validation hook `Graph.get_authentic_node_name` is dynamically
dispatched (subclasses override it); operations that may consult it take it
as an explicit argument. -/
abbrev AuthHook := GState → String → GState × Option String

/-- `NodeList._internal_add_node(node_name, external_id,
are_neighbors_cached, add_to_cache)`.  `Node.__init__` strips the external
id; the fresh node starts with empty `_neighbors` and
`_are_neighbors_loaded = False`, then `are_neighbors_cached` is assigned.
When `add_to_cache` is set and the record is absent, `db.Node` is constructed
(the constructor strips both strings; the names reaching it here are already
stripped) and committed with `are_neighbors_cached = False`. -/
def internal_add_node (s : GState) (nodeName : String)
    (externalId : Option String) (areNeighborsCached : Bool)
    (addToCache : Bool) : GState :=
  let index := s.nodes.length
  let node : NodeSt :=
    { ref := ⟨index, nodeName, externalId.map pyStrip⟩
      areNeighborsLoaded := false
      areNeighborsCached := areNeighborsCached
      neighbors := [] }
  let s₁ := { s with
    nodes := dput s.nodes index node
    nodeNameMap := dput s.nodeNameMap nodeName index }
  if addToCache then
    match dbFindNode s₁.dbNodes nodeName with
    | some _ => s₁
    | none =>
        { s₁ with dbNodes := s₁.dbNodes ++
            [⟨pyStrip nodeName, (externalId.map pyStrip).map pyStrip, false⟩] }
  else s₁

/-- `NodeList.get_node_by_name(node_name, can_validate_and_load,
external_id)`.  Returns the node object (if any) along with the possibly
mutated state.  The final lookup `self._node_name_map.get(node_name)` uses
the rebound `node_name` (which is the hook's answer on the validation path,
and `None`-lookup yields `None` when the hook found nothing). -/
def get_node_by_name (auth : AuthHook) (s : GState) (nodeName : String)
    (canValidateAndLoad : Bool) (externalId : Option String) :
    GState × Option NodeSt :=
  match dget s.nodeNameMap nodeName with
  | some idx => (s, dget s.nodes idx)
  | none =>
    match dbFindNode s.dbNodes nodeName with
    | none =>
      if canValidateAndLoad then
        let (s₁, authName?) := auth s nodeName
        match authName? with
        | none => (s₁, none)
        | some authName =>
          let s₂ :=
            match dbFindNode s₁.dbNodes authName with
            | none => internal_add_node s₁ authName externalId false true
            | some dbn =>
                internal_add_node s₁ dbn.name dbn.externalId
                  dbn.areNeighborsCached false
          (s₂, (dget s₂.nodeNameMap authName).bind (dget s₂.nodes))
      else (s, none)
    | some dbn =>
      let s₁ := internal_add_node s dbn.name dbn.externalId
        dbn.areNeighborsCached false
      (s₁, (dget s₁.nodeNameMap nodeName).bind (dget s₁.nodes))

/-- A hook that is never consulted (placeholder argument for calls made with
`can_validate_and_load = False`, on which the hook is unreachable). -/
def noAuth : AuthHook := fun s _ => (s, none)

/-- The base `Graph.get_authentic_node_name(node_name)`:
`node = self._nodes.get_node_by_name(node_name)` (defaults:
`can_validate_and_load = False`), then `node.name` or `None`. -/
def base_auth : AuthHook := fun s name =>
  let (s₁, nd?) := get_node_by_name noAuth s name false none
  (s₁, nd?.map (fun nd => nd.ref.name))

/-- `NodeList.add_node_by_name(node_name, external_id)` (also
`Graph.add_node`): the `None` and whitespace-only guards return silently;
the lookup is made with `can_validate_and_load = False`, so no hook runs. -/
def add_node_by_name (s : GState) (nodeName : Option String)
    (externalId : Option String) : GState :=
  match nodeName with
  | none => s
  | some nm =>
    let nm := pyStrip nm
    if nm.length = 0 then s
    else
      match get_node_by_name noAuth s nm false externalId with
      | (s₁, some _) => s₁
      | (s₁, none) => internal_add_node s₁ nm externalId false true

/-- `EdgeList.get_edge_by_name(source_name, target_name)` (lookups made with
`can_validate_and_load = False`). -/
def get_edge_by_name (s : GState) (a b : String) : GState × Option EdgeR :=
  match get_node_by_name noAuth s a false none with
  | (s₁, none) => (s₁, none)
  | (s₁, some src) =>
    match get_node_by_name noAuth s₁ b false none with
    | (s₂, none) => (s₂, none)
    | (s₂, some tgt) => (s₂, get_edge_by_index s₂.edges src.ref.index tgt.ref.index)

/-! ## Lazy neighbor loading (`Node._load_neighbors` and friends) -/

/-- The body of the `for db_node in neighbors` loop of
`Node._load_neighbors_from_database`: `graph.add_node(...)`, then
`nodes.get_node_by_name(...)`, then `graph.add_edge(self, neighbor, 1, False)`.
A `None` neighbor would hit `neighbor.index` inside the edge lookup
(`AttributeError`). -/
def hydrateLoop (selfRef : NodeRef) (s : GState) :
    List DBNodeR → Except (PyErr × GState) GState
  | [] => .ok s
  | dbn :: rest =>
    let s₁ := add_node_by_name s (some dbn.name) dbn.externalId
    match get_node_by_name noAuth s₁ dbn.name false none with
    | (s₂, none) => .error (.attributeError, s₂)
    | (s₂, some nbr) =>
      match graph_add_edge s₂ selfRef nbr.ref 1 false with
      | .error err => .error err
      | .ok s₃ => hydrateLoop selfRef s₃ rest

/-- `Node._load_neighbors_from_database(self)` for the node object at index
`i`: sets `self._are_neighbors_loaded = True` FIRST, then reads
`graph.database.Node.find_by_name(self.name).neighbors` (an
`AttributeError` when the record is absent) and runs the hydration loop. -/
def load_neighbors_from_database (s : GState) (i : ℕ) :
    Except (PyErr × GState) GState :=
  let s₀ := updateNode s i (fun n => { n with areNeighborsLoaded := true })
  match dget s₀.nodes i with
  | none => .ok s₀
  | some nd =>
    match dbFindNode s₀.dbNodes nd.ref.name with
    | none => .error (.attributeError, s₀)
    | some _ => hydrateLoop nd.ref s₀ (dbNeighbors s₀ nd.ref.name)

/-- An External Neighbor Source API call: given the node's name, either the
fetched neighbor `(name, external_id)` pairs or a raised failure.  This is
the remote call itself (`client.similar_artists`, the igraph vertex query);
it happens before any state mutation in both overrides in the repository. -/
abbrev ExtApi := String → Except Unit (List (String × Option String))

/-- The loop shared by the two `_load_neighbors_from_external_source`
overrides in the repository (`igraphwrapper.IGraphNode`,
`spotifyartist.SpotifyArtistNode`): for each fetched pair,
`get_node_by_name(name, can_validate_and_load=True, external_id=...)`
against the graph's validation hook, then `graph.add_edge(self, neighbor)`
(default weight 1, saved to the cache).  A `None` neighbor hits
`neighbor.index` (`AttributeError`). -/
def fetchLoop (auth : AuthHook) (selfRef : NodeRef) (s : GState) :
    List (String × Option String) → Except (PyErr × GState) GState
  | [] => .ok s
  | (nm, ext) :: rest =>
    match get_node_by_name auth s nm true ext with
    | (s₁, none) => .error (.attributeError, s₁)
    | (s₁, some nbr) =>
      match graph_add_edge s₁ selfRef nbr.ref 1 true with
      | .error err => .error err
      | .ok s₂ => fetchLoop auth selfRef s₂ rest

/-- `Node._load_neighbors_from_external_source` in the override pattern of
the repository: call the external API with the node's identity, then run the
registration loop.  When the API raises, the failure propagates with the
state untouched (the API call precedes every mutation in both overrides). -/
def patternFetch (api : ExtApi) (auth : AuthHook) (s : GState)
    (selfRef : NodeRef) : Except (PyErr × GState) GState :=
  match api selfRef.name with
  | .error _ => .error (.extSourceError, s)
  | .ok items => fetchLoop auth selfRef s items

/-- The signature of `Node._load_neighbors_from_external_source` as
`Node._load_neighbors` consumes it (dynamically dispatched). -/
abbrev ExtFetch := GState → NodeRef → Except (PyErr × GState) GState

/-- `Node._load_neighbors(self)` for the node object at index `i`.  Returns
the final state together with the number of
`_load_neighbors_from_external_source` invocations and the number of
`_load_neighbors_from_database` entries made by this call.  Step one (fetch,
then `db_node.are_neighbors_cached = True`, `commit`, and
`self.are_neighbors_cached = True`) runs only when the in-memory flag is
down; a missing database record raises `AttributeError` on the flag
assignment.  Step two rereads `self._are_neighbors_loaded` from the current
state. -/
def load_neighbors (fetch : ExtFetch) (s : GState) (i : ℕ) :
    Except (PyErr × GState) (GState × ℕ × ℕ) :=
  match dget s.nodes i with
  | none => .ok (s, 0, 0)
  | some n =>
    let step1 : Except (PyErr × GState) (GState × ℕ) :=
      if n.areNeighborsCached then .ok (s, 0)
      else
        match fetch s n.ref with
        | .error err => .error err
        | .ok s₁ =>
          match dbFindNode s₁.dbNodes n.ref.name with
          | none => .error (.attributeError, s₁)
          | some _ =>
            let s₂ := { s₁ with dbNodes := dbSetNodeCached s₁.dbNodes n.ref.name }
            -- db.session.commit()
            let s₃ := updateNode s₂ i (fun nd => { nd with areNeighborsCached := true })
            .ok (s₃, 1)
    match step1 with
    | .error err => .error err
    | .ok (s', c) =>
      match dget s'.nodes i with
      | none => .ok (s', c, 0)
      | some n' =>
        if n'.areNeighborsLoaded then .ok (s', c, 0)
        else
          match load_neighbors_from_database s' i with
          | .error err => .error err
          | .ok s'' => .ok (s'', c, 1)

/-- The state carried by a result, whether returned or raised. -/
def exState {α : Type} (proj : α → GState) : Except (PyErr × GState) α → GState
  | .ok a => proj a
  | .error (_, s) => s

/-! ## Dictionary lemmas -/

theorem dget_dput_self {K V : Type} [DecidableEq K] (d : List (K × V)) (k : K)
    (v : V) : dget (dput d k v) k = some v := by
  induction d with
  | nil => simp [dput, dget]
  | cons hd tl ih =>
    obtain ⟨k', v'⟩ := hd
    by_cases h : k' = k
    · subst h; simp [dput, dget]
    · simp [dput, dget, h, ih]

theorem dget_dput_ne {K V : Type} [DecidableEq K] (d : List (K × V))
    (k k' : K) (v : V) (h : k' ≠ k) : dget (dput d k v) k' = dget d k' := by
  induction d with
  | nil =>
    simp only [dput, dget]
    rw [if_neg (Ne.symm h)]
  | cons hd tl ih =>
    obtain ⟨k₀, v₀⟩ := hd
    by_cases hk : k₀ = k
    · subst hk
      simp only [dput, if_pos rfl, dget]
      rw [if_neg (Ne.symm h), if_neg (Ne.symm h)]
    · simp only [dput, if_neg hk, dget]
      by_cases hk' : k₀ = k'
      · rw [if_pos hk', if_pos hk']
      · rw [if_neg hk', if_neg hk', ih]

theorem dget_dupd_self {K V : Type} [DecidableEq K] (d : List (K × V)) (k : K)
    (f : V → V) : dget (dupd d k f) k = (dget d k).map f := by
  induction d with
  | nil => simp [dupd, dget]
  | cons hd tl ih =>
    obtain ⟨k', v'⟩ := hd
    by_cases h : k' = k
    · subst h; simp [dupd, dget]
    · simp [dupd, dget, h, ih]

theorem dget_dupd_ne {K V : Type} [DecidableEq K] (d : List (K × V))
    (k k' : K) (f : V → V) (h : k' ≠ k) :
    dget (dupd d k f) k' = dget d k' := by
  induction d with
  | nil => simp [dupd]
  | cons hd tl ih =>
    obtain ⟨k₀, v₀⟩ := hd
    by_cases hk : k₀ = k
    · subst hk
      simp only [dupd, if_pos rfl, dget]
      rw [if_neg (Ne.symm h), if_neg (Ne.symm h)]
    · simp only [dupd, if_neg hk, dget]
      by_cases hk' : k₀ = k'
      · rw [if_pos hk', if_pos hk']
      · rw [if_neg hk', if_neg hk', ih]

theorem dupd_keys {K V : Type} [DecidableEq K] (d : List (K × V)) (k : K)
    (f : V → V) : (dupd d k f).map Prod.fst = d.map Prod.fst := by
  induction d with
  | nil => simp [dupd]
  | cons hd tl ih =>
    obtain ⟨k', v⟩ := hd
    by_cases h : k' = k
    · simp [dupd, h]
    · simp [dupd, h, ih]

theorem dget_eq_none_iff {K V : Type} [DecidableEq K] (d : List (K × V))
    (k : K) : dget d k = none ↔ k ∉ d.map Prod.fst := by
  induction d with
  | nil => simp [dget]
  | cons hd tl ih =>
    obtain ⟨k', v⟩ := hd
    by_cases h : k' = k
    · subst h; simp [dget]
    · simp only [dget, if_neg h, List.map_cons, List.mem_cons, ih]
      constructor
      · rintro hk (rfl | hmem)
        · exact h rfl
        · exact hk hmem
      · intro hk
        exact fun hmem => hk (Or.inr hmem)

theorem dput_keys_fresh {K V : Type} [DecidableEq K] (d : List (K × V))
    (k : K) (v : V) (h : dget d k = none) :
    (dput d k v).map Prod.fst = d.map Prod.fst ++ [k] := by
  induction d with
  | nil => simp [dput]
  | cons hd tl ih =>
    obtain ⟨k', v'⟩ := hd
    by_cases hk : k' = k
    · subst hk; simp [dget] at h
    · simp only [dget, if_neg hk] at h
      simp [dput, hk, ih h]

/-! ## `add_neighbor` characterization -/

theorem add_neighbor_some_eq (self : NodeRef) (nbrs : List ((ℕ × ℕ) × EdgeR))
    (e : EdgeR) :
    add_neighbor self nbrs (some e) =
      if e.source ≠ self ∧ e.target ≠ self then .ok (nbrs, [])
      else if (dget nbrs e.key).isSome ∨ (dget nbrs (e.key.2, e.key.1)).isSome then
        .ok (nbrs, [])
      else .ok (dput nbrs e.key e,
        [if e.source = self then e.target else e.source]) := by
  by_cases hs : e.source = self
  · simp [add_neighbor, hs]
  · by_cases ht : e.target = self
    · simp [add_neighbor, hs, ht]
    · simp [add_neighbor, hs, ht]

/-- **C10.** For a `None` edge or an edge touching neither endpoint,
`add_neighbor` returns silently and leaves the neighbor map unchanged with
no event; the `ValueError` branch is unreachable (`add_neighbor` never
raises, whatever the input); and registering the same edge a second time —
presented with the same key orientation or with the reversed one (the edge
with its endpoints swapped, caught by the second lookup of the duplicate
check) — leaves the map unchanged and dispatches no second neighbor-added
event. -/
theorem addNeighbor_safety :
    (∀ self nbrs, add_neighbor self nbrs none = .ok (nbrs, [])) ∧
    (∀ self nbrs (e : EdgeR), e.source ≠ self → e.target ≠ self →
      add_neighbor self nbrs (some e) = .ok (nbrs, [])) ∧
    (∀ self nbrs edge, ∃ r, add_neighbor self nbrs edge = .ok r) ∧
    (∀ self nbrs (e : EdgeR) res evs,
      add_neighbor self nbrs (some e) = .ok (res, evs) →
      add_neighbor self res (some e) = .ok (res, []) ∧
      add_neighbor self res (some ⟨e.target, e.source, e.weight⟩) =
        .ok (res, [])) := by
  refine ⟨fun self nbrs => rfl, fun self nbrs e hs ht => ?_, ?_, ?_⟩
  · rw [add_neighbor_some_eq, if_pos ⟨hs, ht⟩]
  · rintro self nbrs (_ | e)
    · exact ⟨(nbrs, []), rfl⟩
    · rw [add_neighbor_some_eq]
      by_cases hg : e.source ≠ self ∧ e.target ≠ self
      · rw [if_pos hg]; exact ⟨_, rfl⟩
      · rw [if_neg hg]
        by_cases hd : (dget nbrs e.key).isSome ∨ (dget nbrs (e.key.2, e.key.1)).isSome
        · rw [if_pos hd]; exact ⟨_, rfl⟩
        · rw [if_neg hd]; exact ⟨_, rfl⟩
  · intro self nbrs e res evs h
    rw [add_neighbor_some_eq] at h
    by_cases hg : e.source ≠ self ∧ e.target ≠ self
    · rw [if_pos hg] at h
      obtain ⟨rfl, rfl⟩ : nbrs = res ∧ [] = evs := by
        simpa using h
      constructor
      · rw [add_neighbor_some_eq, if_pos hg]
      · rw [add_neighbor_some_eq, if_pos (⟨hg.2, hg.1⟩ :
          (⟨e.target, e.source, e.weight⟩ : EdgeR).source ≠ self ∧
          (⟨e.target, e.source, e.weight⟩ : EdgeR).target ≠ self)]
    · rw [if_neg hg] at h
      have hgrev : ¬((⟨e.target, e.source, e.weight⟩ : EdgeR).source ≠ self ∧
          (⟨e.target, e.source, e.weight⟩ : EdgeR).target ≠ self) :=
        fun hc => hg ⟨hc.2, hc.1⟩
      by_cases hd : (dget nbrs e.key).isSome ∨ (dget nbrs (e.key.2, e.key.1)).isSome
      · rw [if_pos hd] at h
        obtain ⟨rfl, rfl⟩ : nbrs = res ∧ [] = evs := by
          simpa using h
        constructor
        · rw [add_neighbor_some_eq, if_neg hg, if_pos hd]
        · have hcond : (dget nbrs (⟨e.target, e.source, e.weight⟩ : EdgeR).key).isSome ∨
              (dget nbrs ((⟨e.target, e.source, e.weight⟩ : EdgeR).key.2,
                (⟨e.target, e.source, e.weight⟩ : EdgeR).key.1)).isSome :=
            Or.symm hd
          rw [add_neighbor_some_eq, if_neg hgrev, if_pos hcond]
      · rw [if_neg hd] at h
        obtain ⟨rfl, rfl⟩ : dput nbrs e.key e = res ∧ _ = evs := by
          simpa using h
        constructor
        · rw [add_neighbor_some_eq, if_neg hg,
            if_pos (Or.inl (by rw [dget_dput_self]; rfl))]
        · have hsome : (dget (dput nbrs e.key e) e.key).isSome := by
            rw [dget_dput_self]
            rfl
          have hcond : (dget (dput nbrs e.key e)
                (⟨e.target, e.source, e.weight⟩ : EdgeR).key).isSome ∨
              (dget (dput nbrs e.key e)
                ((⟨e.target, e.source, e.weight⟩ : EdgeR).key.2,
                 (⟨e.target, e.source, e.weight⟩ : EdgeR).key.1)).isSome :=
            Or.inr hsome
          rw [add_neighbor_some_eq, if_neg hgrev, if_pos hcond]

/-- Witness for C10 at a concrete input: after registering the `A`–`B` edge
on node `A`, re-registering it in the same orientation and as the reversed
`B`–`A` edge both leave the map unchanged with no event. -/
theorem addNeighbor_safety_witness :
    add_neighbor ⟨0, "A", none⟩
        [((0, 1), ⟨⟨0, "A", none⟩, ⟨1, "B", none⟩, 1⟩)]
        (some ⟨⟨0, "A", none⟩, ⟨1, "B", none⟩, 1⟩) =
      .ok ([((0, 1), ⟨⟨0, "A", none⟩, ⟨1, "B", none⟩, 1⟩)], []) ∧
    add_neighbor ⟨0, "A", none⟩
        [((0, 1), ⟨⟨0, "A", none⟩, ⟨1, "B", none⟩, 1⟩)]
        (some ⟨⟨1, "B", none⟩, ⟨0, "A", none⟩, 1⟩) =
      .ok ([((0, 1), ⟨⟨0, "A", none⟩, ⟨1, "B", none⟩, 1⟩)], []) :=
  addNeighbor_safety.2.2.2 ⟨0, "A", none⟩ []
    ⟨⟨0, "A", none⟩, ⟨1, "B", none⟩, 1⟩
    [((0, 1), ⟨⟨0, "A", none⟩, ⟨1, "B", none⟩, 1⟩)] [⟨1, "B", none⟩] rfl

/-! ## Claim C4: `EdgeList.add_edge` validation -/

/-- A state holding the single node `"A"` (index 0), built by `add_node`. -/
def stA : GState := add_node_by_name GState.empty (some "A") none

/-- **C4, counterexample.**  On the graph holding node `"A"`,
`add_edge(A, A, 2)` raises nothing and silently leaves the state unchanged:
the self-loop case is a silent no-op, not a raised validation error. -/
theorem addEdge_selfLoop_no_error_cex :
    add_edge stA ⟨0, "A", none⟩ ⟨0, "A", none⟩ 2 true = .ok stA := rfl

/-- **C4, amended.**  `add_edge(n, n, w)` is a silent no-op: it returns
normally and creates no edge (state unchanged).  `add_edge` with weight ≤ 0
between nodes with distinct indices and no existing edge raises a
`TypeError` from `Edge.__init__` and creates no edge (the error state is the
input state). -/
theorem addEdge_validation :
    (∀ (s : GState) (src tgt : NodeRef) (w : ℚ) (b : Bool),
      src.index = tgt.index → add_edge s src tgt w b = .ok s) ∧
    (∀ (s : GState) (src tgt : NodeRef) (w : ℚ) (b : Bool),
      src.index ≠ tgt.index →
      get_edge_by_index s.edges src.index tgt.index = none →
      w ≤ 0 →
      add_edge s src tgt w b = .error (.typeError "Invalid edge weight", s)) := by
  constructor
  · intro s src tgt w b h
    rw [add_edge, if_pos (Or.inl h)]
  · intro s src tgt w b hne hnone hw
    rw [add_edge, if_neg (by simp [hne, hnone]), edgeInit, if_pos hw]

/-- Witness for C4's amended statement at concrete inputs. -/
theorem addEdge_validation_witness :
    add_edge GState.empty ⟨0, "A", none⟩ ⟨0, "A", none⟩ 1 true = .ok GState.empty ∧
    add_edge GState.empty ⟨0, "A", none⟩ ⟨1, "B", none⟩ 0 true =
      .error (.typeError "Invalid edge weight", GState.empty) :=
  ⟨addEdge_validation.1 GState.empty ⟨0, "A", none⟩ ⟨0, "A", none⟩ 1 true rfl,
   addEdge_validation.2 GState.empty ⟨0, "A", none⟩ ⟨1, "B", none⟩ 0 true
     (by decide) rfl (by norm_num)⟩

/-! ## Footprint lemmas for `internal_add_node` -/

theorem internal_add_node_nodes (s : GState) (nm : String) (ext : Option String)
    (c a : Bool) :
    (internal_add_node s nm ext c a).nodes =
      dput s.nodes s.nodes.length
        ⟨⟨s.nodes.length, nm, ext.map pyStrip⟩, false, c, []⟩ := by
  rw [internal_add_node]
  simp only
  split
  · split <;> rfl
  · rfl

theorem internal_add_node_nameMap (s : GState) (nm : String)
    (ext : Option String) (c a : Bool) :
    (internal_add_node s nm ext c a).nodeNameMap =
      dput s.nodeNameMap nm s.nodes.length := by
  rw [internal_add_node]
  simp only
  split
  · split <;> rfl
  · rfl

theorem internal_add_node_edges (s : GState) (nm : String) (ext : Option String)
    (c a : Bool) : (internal_add_node s nm ext c a).edges = s.edges := by
  rw [internal_add_node]
  simp only
  split
  · split <;> rfl
  · rfl

theorem internal_add_node_dbEdges (s : GState) (nm : String)
    (ext : Option String) (c a : Bool) :
    (internal_add_node s nm ext c a).dbEdges = s.dbEdges := by
  rw [internal_add_node]
  simp only
  split
  · split <;> rfl
  · rfl

theorem internal_add_node_dbNodes_no_cache (s : GState) (nm : String)
    (ext : Option String) (c : Bool) :
    (internal_add_node s nm ext c false).dbNodes = s.dbNodes := rfl

/-! ## Claim C8: `add_node_by_name` name validation -/

/-- **C8, counterexample.**  `add_node_by_name` with `None` and with a
whitespace-only name returns normally (no validation error is raised) and
silently leaves the graph unchanged. -/
theorem addNode_invalid_name_silent_cex :
    add_node_by_name GState.empty (some "   ") none = GState.empty ∧
    add_node_by_name GState.empty none none = GState.empty := by
  constructor
  · decide
  · rfl

/-- **C8, amended.**  A `None` name and a name that is empty after stripping
make `add_node_by_name` a silent no-op (normal return, no node created,
state untouched) — not a raised validation error; for a name that survives
stripping and is new to the graph and the cache, the created node stores the
stripped name. -/
theorem addNode_name_validation :
    (∀ (s : GState) (ext : Option String),
      add_node_by_name s none ext = s) ∧
    (∀ (s : GState) (nm : String) (ext : Option String),
      (pyStrip nm).length = 0 → add_node_by_name s (some nm) ext = s) ∧
    (∀ (s : GState) (nm : String) (ext : Option String),
      (pyStrip nm).length ≠ 0 →
      dget s.nodeNameMap (pyStrip nm) = none →
      dbFindNode s.dbNodes (pyStrip nm) = none →
      ∃ node : NodeSt,
        dget (add_node_by_name s (some nm) ext).nodes s.nodes.length = some node ∧
        node.ref.name = pyStrip nm ∧ node.ref.index = s.nodes.length) := by
  refine ⟨fun s ext => rfl, fun s nm ext h => ?_, fun s nm ext h hmap hdb => ?_⟩
  · rw [add_node_by_name, if_pos h]
  · have hget : get_node_by_name noAuth s (pyStrip nm) false ext = (s, none) := by
      rw [get_node_by_name, hmap, hdb]
      simp
    rw [add_node_by_name, if_neg h, hget]
    refine ⟨⟨⟨s.nodes.length, pyStrip nm, ext.map pyStrip⟩, false, false, []⟩,
      ?_, rfl, rfl⟩
    rw [internal_add_node_nodes, dget_dput_self]

/-- Witness for C8's amended statement at concrete inputs. -/
theorem addNode_name_validation_witness :
    add_node_by_name GState.empty (some " x ") none = GState.empty ∨
    ∃ node : NodeSt,
      dget (add_node_by_name GState.empty (some " x ") none).nodes 0 = some node ∧
      node.ref.name = pyStrip " x " ∧ node.ref.index = 0 :=
  Or.inr (addNode_name_validation.2.2 GState.empty " x " none
    (by decide) rfl rfl)

/-! ## Sortedness of `pySorted` -/

theorem mem_sinsert {α : Type} (le : α → α → Bool) (x z : α) (l : List α) :
    z ∈ sinsert le x l ↔ z = x ∨ z ∈ l := by
  induction l with
  | nil => simp [sinsert]
  | cons y ys ih =>
    simp only [sinsert]
    by_cases hxy : le x y = true
    · rw [if_pos hxy]
      simp [or_comm, or_assoc, or_left_comm]
    · rw [if_neg hxy]
      simp only [List.mem_cons, ih]
      tauto

theorem pairwise_sinsert {α : Type} (le : α → α → Bool)
    (htrans : ∀ a b c, le a b = true → le b c = true → le a c = true)
    (htot : ∀ a b, le a b = true ∨ le b a = true)
    (x : α) (l : List α) (hl : l.Pairwise (le · · = true)) :
    (sinsert le x l).Pairwise (le · · = true) := by
  induction l with
  | nil => simp [sinsert]
  | cons y ys ih =>
    rcases List.pairwise_cons.mp hl with ⟨hy, hys⟩
    simp only [sinsert]
    by_cases hxy : le x y = true
    · rw [if_pos hxy]
      refine List.pairwise_cons.mpr ⟨?_, hl⟩
      intro z hz
      rcases List.mem_cons.mp hz with rfl | hz
      · exact hxy
      · exact htrans x y z hxy (hy z hz)
    · rw [if_neg hxy]
      have hyx : le y x = true := (htot x y).resolve_left hxy
      refine List.pairwise_cons.mpr ⟨?_, ih hys⟩
      intro z hz
      rcases (mem_sinsert le x z ys).mp hz with rfl | hz
      · exact hyx
      · exact hy z hz

theorem pairwise_pySorted {α : Type} (le : α → α → Bool)
    (htrans : ∀ a b c, le a b = true → le b c = true → le a c = true)
    (htot : ∀ a b, le a b = true ∨ le b a = true)
    (l : List α) : (pySorted le l).Pairwise (le · · = true) := by
  induction l with
  | nil => simp [pySorted]
  | cons x xs ih => exact pairwise_sinsert le htrans htot x (pySorted le xs) ih

theorem keyLeB_trans (p q r : ℕ × ℕ) (h₁ : keyLeB p q = true)
    (h₂ : keyLeB q r = true) : keyLeB p r = true := by
  simp only [keyLeB, decide_eq_true_eq] at *
  omega

theorem keyLeB_total (p q : ℕ × ℕ) : keyLeB p q = true ∨ keyLeB q p = true := by
  simp only [keyLeB, decide_eq_true_eq]
  omega

/-! ## Claim C7: the exported edge order -/

/-- Following the spec's words, for comparison with the code: the unordered
index-pair key of an edge, canonically ordered. -/
def specUnorderedKey (e : EdgeR) : ℕ × ℕ :=
  (min e.source.index e.target.index, max e.source.index e.target.index)

/-- Following the spec's words, for comparison with the code: the exported
edge sequence is sorted ascending by the unordered index-pair key
(adjacent-pairs check; equivalent to the chain form for a sequence). -/
def specSortedByUnorderedKeyB : List EdgeR → Bool
  | [] => true
  | [_] => true
  | a :: b :: rest =>
      keyLeB (specUnorderedKey a) (specUnorderedKey b) &&
        specSortedByUnorderedKeyB (b :: rest)

/-- The spec's ordering contract as a proposition. -/
def specSortedByUnorderedKey (l : List EdgeR) : Prop :=
  specSortedByUnorderedKeyB l = true

/-- Nodes `"A"`, `"B"`, `"C"` (indices 0, 1, 2) on a fresh graph. -/
def st3 : GState :=
  add_node_by_name
    (add_node_by_name (add_node_by_name GState.empty (some "A") none)
      (some "B") none)
    (some "C") none

/-- `st3` after `add_edge(B, A, 1)`. -/
def st3BA : GState := exState id (add_edge st3 ⟨1, "B", none⟩ ⟨0, "A", none⟩ 1 true)

/-- `st3BA` after `add_edge(A, C, 1)`. -/
def st3BAAC : GState :=
  exState id (add_edge st3BA ⟨0, "A", none⟩ ⟨2, "C", none⟩ 1 true)

/-- **C7, counterexample.**  Insert the `{A,B}` edge as `add_edge(B, A)` and
then the `{A,C}` edge as `add_edge(A, C)`: both calls succeed, but the
exported `edge_list` is NOT sorted by the unordered index-pair key — the
`{A,C}` edge (unordered key `(0,2)`) is enumerated before the `{A,B}` edge
(unordered key `(0,1)`), because the sort key is the stored
`(source.index, target.index)` pair `(1,0)` of the insertion orientation. -/
theorem edgeList_unordered_key_order_cex :
    add_edge st3 ⟨1, "B", none⟩ ⟨0, "A", none⟩ 1 true = .ok st3BA ∧
    add_edge st3BA ⟨0, "A", none⟩ ⟨2, "C", none⟩ 1 true = .ok st3BAAC ∧
    (edge_list st3BAAC.edges).map specUnorderedKey = [(0, 2), (0, 1)] ∧
    ¬ specSortedByUnorderedKey (edge_list st3BAAC.edges) := by
  refine ⟨rfl, rfl, by decide, ?_⟩
  unfold specSortedByUnorderedKey
  decide

/-- **C7, amended.**  For every state of the edge container, the exported
`edge_list` is sorted ascending (lexicographically) by each edge's stored
`key = (source.index, target.index)` — the orientation the edge was
inserted with — so enumeration is deterministic for a given state, but the
position of an edge depends on the argument order of its insertion. -/
theorem edgeList_sorted_by_stored_key (edges : List ((ℕ × ℕ) × EdgeR)) :
    (edge_list edges).Pairwise (fun a b => keyLeB a.key b.key = true) :=
  pairwise_pySorted _ (fun (a b c : EdgeR) => keyLeB_trans a.key b.key c.key)
    (fun (a b : EdgeR) => keyLeB_total a.key b.key) _

/-! ## Claim C6: `get_node_by_name` cache hit / double miss -/

/-- **C6.**  When the name misses the in-memory map but hits the database
cache, `get_node_by_name` materializes a node carrying the record's stored
`are_neighbors_cached` flag, performs no database write (the node is added
with `add_to_cache=False`), and loads no neighbor edges (the new node's
`_neighbors` is empty and `_are_neighbors_loaded` is false); when the name
misses both and `can_validate_and_load` is unset, it returns `None` with no
side effects. -/
theorem getNodeByName_cache_and_miss :
    (∀ (auth : AuthHook) (s : GState) (name : String) (cv : Bool)
        (ext : Option String) (r : DBNodeR),
      dget s.nodeNameMap name = none →
      dbFindNode s.dbNodes name = some r →
      ∃ (s' : GState) (node : NodeSt),
        get_node_by_name auth s name cv ext = (s', some node) ∧
        node.areNeighborsCached = r.areNeighborsCached ∧
        node.areNeighborsLoaded = false ∧
        node.neighbors = [] ∧
        s'.dbNodes = s.dbNodes ∧ s'.dbEdges = s.dbEdges ∧ s'.edges = s.edges) ∧
    (∀ (auth : AuthHook) (s : GState) (name : String) (ext : Option String),
      dget s.nodeNameMap name = none →
      dbFindNode s.dbNodes name = none →
      get_node_by_name auth s name false ext = (s, none)) := by
  constructor
  · intro auth s name cv ext r hmap hdb
    have hr : r.name = name := by
      have h := List.find?_some (p := fun q : DBNodeR => decide (q.name = name))
        (by simpa [dbFindNode] using hdb)
      simpa using h
    refine ⟨internal_add_node s r.name r.externalId r.areNeighborsCached false,
      ⟨⟨s.nodes.length, r.name, r.externalId.map pyStrip⟩, false,
        r.areNeighborsCached, []⟩, ?_, rfl, rfl, rfl, rfl, rfl, ?_⟩
    · have hfind : dget (internal_add_node s r.name r.externalId
          r.areNeighborsCached false).nodeNameMap name = some s.nodes.length := by
        rw [internal_add_node_nameMap, hr, dget_dput_self]
      have hnode : dget (internal_add_node s r.name r.externalId
          r.areNeighborsCached false).nodes s.nodes.length =
          some ⟨⟨s.nodes.length, r.name, r.externalId.map pyStrip⟩, false,
            r.areNeighborsCached, []⟩ := by
        rw [internal_add_node_nodes, dget_dput_self]
      simp only [get_node_by_name, hmap, hdb, hfind, Option.some_bind, hnode]
    · rw [internal_add_node_edges]
  · intro auth s name ext hmap hdb
    simp [get_node_by_name, hmap, hdb]

/-- A graph over a database already holding a cached record for `"A"`. -/
def stDbA : GState := ⟨[], [], [], [⟨"A", none, true⟩], []⟩

/-- Witness for C6 at a concrete input. -/
theorem getNodeByName_cache_and_miss_witness :
    (∃ (s' : GState) (node : NodeSt),
      get_node_by_name noAuth stDbA "A" false none = (s', some node) ∧
      node.areNeighborsCached = true ∧
      node.areNeighborsLoaded = false ∧
      node.neighbors = [] ∧
      s'.dbNodes = stDbA.dbNodes ∧ s'.dbEdges = stDbA.dbEdges ∧
      s'.edges = stDbA.edges) ∧
    get_node_by_name noAuth stDbA "B" false none = (stDbA, none) := by
  constructor
  · simpa using getNodeByName_cache_and_miss.1 noAuth stDbA "A" false none
      ⟨"A", none, true⟩ rfl rfl
  · exact getNodeByName_cache_and_miss.2 noAuth stDbA "B" none rfl rfl

/-! ## More dictionary lemmas -/

theorem dput_fresh_append {K V : Type} [DecidableEq K] (d : List (K × V))
    (k : K) (v : V) (h : dget d k = none) : dput d k v = d ++ [(k, v)] := by
  induction d with
  | nil => simp [dput]
  | cons hd tl ih =>
    obtain ⟨k', v'⟩ := hd
    by_cases hk : k' = k
    · subst hk; simp [dget] at h
    · simp only [dget, if_neg hk] at h
      simp [dput, hk, ih h]

theorem dget_append_left {K V : Type} [DecidableEq K] (d d₂ : List (K × V))
    (k : K) (v : V) (h : dget d k = some v) : dget (d ++ d₂) k = some v := by
  induction d with
  | nil => simp [dget] at h
  | cons hd tl ih =>
    obtain ⟨k', v'⟩ := hd
    by_cases hk : k' = k
    · subst hk
      simp only [dget, if_pos rfl] at h ⊢
      exact h
    · simp only [dget, if_neg hk] at h ⊢
      exact ih h

/-! ## State-footprint relations -/

/-- Every node object registered in `s` is still registered in `s'` at the
same index with the same identity and the same two loading flags (only its
`_neighbors` may have changed, and new nodes may have appeared). -/
def NodesExtend (s s' : GState) : Prop :=
  ∀ j nd, dget s.nodes j = some nd →
    ∃ nd', dget s'.nodes j = some nd' ∧ nd'.ref = nd.ref ∧
      nd'.areNeighborsCached = nd.areNeighborsCached ∧
      nd'.areNeighborsLoaded = nd.areNeighborsLoaded

theorem nodesExtend_refl (s : GState) : NodesExtend s s :=
  fun _ nd h => ⟨nd, h, rfl, rfl, rfl⟩

theorem nodesExtend_trans {s₁ s₂ s₃ : GState} (h₁ : NodesExtend s₁ s₂)
    (h₂ : NodesExtend s₂ s₃) : NodesExtend s₁ s₃ := by
  intro j nd h
  obtain ⟨nd', h', hr, hc, hl⟩ := h₁ j nd h
  obtain ⟨nd'', h'', hr', hc', hl'⟩ := h₂ j nd' h'
  exact ⟨nd'', h'', hr'.trans hr, hc'.trans hc, hl'.trans hl⟩

/-- `add_neighbor` never raises: the `ValueError` branch is dead code. -/
theorem add_neighbor_isOk (self : NodeRef) (nbrs : List ((ℕ × ℕ) × EdgeR))
    (edge : Option EdgeR) : ∃ r, add_neighbor self nbrs edge = .ok r := by
  rcases edge with _ | e
  · exact ⟨(nbrs, []), rfl⟩
  · rw [add_neighbor_some_eq]
    by_cases hg : e.source ≠ self ∧ e.target ≠ self
    · rw [if_pos hg]; exact ⟨_, rfl⟩
    · rw [if_neg hg]
      by_cases hd : (dget nbrs e.key).isSome ∨ (dget nbrs (e.key.2, e.key.1)).isSome
      · rw [if_pos hd]; exact ⟨_, rfl⟩
      · rw [if_neg hd]; exact ⟨_, rfl⟩

/-- `stateAddNeighbor` always succeeds, touches only the `_neighbors`
dictionary of the addressed node, and leaves every other component of the
state intact. -/
theorem stateAddNeighbor_spec (s : GState) (i : ℕ) (e : EdgeR) :
    ∃ s', stateAddNeighbor s i e = .ok s' ∧
      s'.edges = s.edges ∧ s'.nodeNameMap = s.nodeNameMap ∧
      s'.dbNodes = s.dbNodes ∧ s'.dbEdges = s.dbEdges ∧
      NodesExtend s s' ∧ s'.nodes.map Prod.fst = s.nodes.map Prod.fst := by
  cases hdg : dget s.nodes i with
  | none =>
    refine ⟨s, ?_, rfl, rfl, rfl, rfl, nodesExtend_refl s, rfl⟩
    simp [stateAddNeighbor, hdg]
  | some nd =>
    obtain ⟨⟨nbrs', evs⟩, hok⟩ := add_neighbor_isOk nd.ref nd.neighbors (some e)
    refine ⟨updateNode s i (fun n => { n with neighbors := nbrs' }), ?_,
      rfl, rfl, rfl, rfl, ?_, dupd_keys s.nodes i _⟩
    · simp [stateAddNeighbor, hdg, hok]
    · intro j nd₀ h₀
      by_cases hj : j = i
      · rw [hj] at h₀ ⊢
        have hnd : nd₀ = nd := Option.some_injective _ (h₀.symm.trans hdg)
        refine ⟨{ nd with neighbors := nbrs' }, ?_, by rw [hnd], by rw [hnd],
          by rw [hnd]⟩
        have hup := dget_dupd_self s.nodes i
          (fun n => { n with neighbors := nbrs' })
        rw [hdg] at hup
        simpa using hup
      · refine ⟨nd₀, ?_, rfl, rfl, rfl⟩
        have hne := dget_dupd_ne s.nodes i j
          (fun n => { n with neighbors := nbrs' }) hj
        rw [show (updateNode s i fun n => { n with neighbors := nbrs' }).nodes =
          dupd s.nodes i fun n => { n with neighbors := nbrs' } from rfl, hne, h₀]

/-- `Edge.__init__` succeeds for a positive weight and distinct indices,
and only the endpoints' `_neighbors` dictionaries change. -/
theorem edgeInit_spec (s : GState) (src tgt : NodeRef) (w : ℚ) (hw : 0 < w)
    (hne : src.index ≠ tgt.index) :
    ∃ s', edgeInit s src tgt w = .ok (s', ⟨src, tgt, w⟩) ∧
      s'.edges = s.edges ∧ s'.nodeNameMap = s.nodeNameMap ∧
      s'.dbNodes = s.dbNodes ∧ s'.dbEdges = s.dbEdges ∧
      NodesExtend s s' ∧ s'.nodes.map Prod.fst = s.nodes.map Prod.fst := by
  obtain ⟨s₁, h1, he1, hm1, hdn1, hde1, hx1, hk1⟩ :=
    stateAddNeighbor_spec s src.index ⟨src, tgt, w⟩
  obtain ⟨s₂, h2, he2, hm2, hdn2, hde2, hx2, hk2⟩ :=
    stateAddNeighbor_spec s₁ tgt.index ⟨src, tgt, w⟩
  refine ⟨s₂, ?_, he2.trans he1, hm2.trans hm1, hdn2.trans hdn1,
    hde2.trans hde1, nodesExtend_trans hx1 hx2, hk2.trans hk1⟩
  rw [edgeInit, if_neg (not_le.mpr hw), if_neg hne]
  simp only [h1, h2]

/-- `EdgeList.add_edge` on a fresh unordered pair with distinct indices,
distinct names and a positive weight: it succeeds and stores the new edge
under the `(source.index, target.index)` key of the call's orientation;
registries other than the edge dictionaries and the endpoints'
`_neighbors` are untouched. -/
theorem add_edge_ok_spec (s : GState) (src tgt : NodeRef) (w : ℚ) (b : Bool)
    (hne : src.index ≠ tgt.index) (hw : 0 < w)
    (habs : get_edge_by_index s.edges src.index tgt.index = none)
    (hnames : src.name ≠ tgt.name) :
    ∃ s', add_edge s src tgt w b = .ok s' ∧
      s'.edges = dput s.edges (src.index, tgt.index) ⟨src, tgt, w⟩ ∧
      s'.nodeNameMap = s.nodeNameMap ∧ s'.dbNodes = s.dbNodes ∧
      NodesExtend s s' ∧ s'.nodes.map Prod.fst = s.nodes.map Prod.fst := by
  obtain ⟨s₁, h1, he, hm, hdn, hde, hx, hk⟩ := edgeInit_spec s src tgt w hw hne
  have hguard : ¬(src.index = tgt.index ∨
      (get_edge_by_index s.edges src.index tgt.index).isSome) := by
    simp [hne, habs]
  rw [add_edge, if_neg hguard]
  simp only [h1]
  cases b with
  | false =>
    exact ⟨_, rfl, by rw [he], hm, hdn, hx, hk⟩
  | true =>
    cases hfind : dbFindEdge s₁.dbEdges src.name tgt.name with
    | none =>
      cases hlt : pyStrLt src.name tgt.name with
      | true =>
        have hnew : dbEdgeNew src.name tgt.name w = .ok ⟨src.name, tgt.name, w⟩ := by
          rw [dbEdgeNew, if_neg hnames, if_pos hlt]
        simp only [hfind, hnew]
        exact ⟨_, rfl, by rw [he], hm, hdn, hx, hk⟩
      | false =>
        have hnew : dbEdgeNew src.name tgt.name w = .ok ⟨tgt.name, src.name, w⟩ := by
          rw [dbEdgeNew, if_neg hnames, if_neg (by simp [hlt])]
        simp only [hfind, hnew]
        exact ⟨_, rfl, by rw [he], hm, hdn, hx, hk⟩
    | some dbe =>
      by_cases hwne : dbe.weight ≠ w
      · simp only [hfind, if_pos hwne]
        exact ⟨_, rfl, by rw [he], hm, hdn, hx, hk⟩
      · simp only [hfind, if_neg hwne]
        exact ⟨_, rfl, by rw [he], hm, hdn, hx, hk⟩

theorem get_edge_by_index_eq_none (edges : List ((ℕ × ℕ) × EdgeR)) (i j : ℕ) :
    get_edge_by_index edges i j = none ↔
      dget edges (i, j) = none ∧ dget edges (j, i) = none := by
  rw [get_edge_by_index]
  cases h : dget edges (i, j) <;> simp [h]

/-! ## Claim C3: undirected, idempotent edge insertion -/

/-- **C3.**  On registered nodes with distinct indices and names, a fresh
pair and positive weight: `add_edge(n1, n2, w)` succeeds; the reversed call
`add_edge(n2, n1, w)` is a no-op returning the same state (the duplicate
check tries both orderings); the pair holds exactly one edge;
`get_edge_by_index` in either argument order and `get_edge_by_name(n2, n1)`
all return that edge. -/
theorem addEdge_undirected_idempotent
    (s : GState) (r1 r2 : NodeRef) (n1 n2 : NodeSt) (w : ℚ)
    (hw : 0 < w)
    (hne : r1.index ≠ r2.index) (hnames : r1.name ≠ r2.name)
    (hm1 : dget s.nodeNameMap r1.name = some r1.index)
    (hm2 : dget s.nodeNameMap r2.name = some r2.index)
    (hn1 : dget s.nodes r1.index = some n1) (href1 : n1.ref = r1)
    (hn2 : dget s.nodes r2.index = some n2) (href2 : n2.ref = r2)
    (habs : get_edge_by_index s.edges r1.index r2.index = none) :
    ∃ s₁, add_edge s r1 r2 w true = .ok s₁ ∧
      add_edge s₁ r2 r1 w true = .ok s₁ ∧
      get_edge_by_index s₁.edges r1.index r2.index = some ⟨r1, r2, w⟩ ∧
      get_edge_by_index s₁.edges r2.index r1.index = some ⟨r1, r2, w⟩ ∧
      (s₁.edges.filter (fun kv =>
        kv.1 = (r1.index, r2.index) ∨ kv.1 = (r2.index, r1.index))).length = 1 ∧
      get_edge_by_name s₁ r2.name r1.name = (s₁, some ⟨r1, r2, w⟩) := by
  obtain ⟨s₁, hok, hedges, hmap, hdbn, hx, hkeys⟩ :=
    add_edge_ok_spec s r1 r2 w true hne hw habs hnames
  obtain ⟨hd12, hd21⟩ := (get_edge_by_index_eq_none s.edges r1.index r2.index).mp habs
  have hkne : ((r2.index, r1.index) : ℕ × ℕ) ≠ (r1.index, r2.index) := by
    intro hcontra
    exact hne (congrArg Prod.fst hcontra).symm
  have hget12 : dget s₁.edges (r1.index, r2.index) = some ⟨r1, r2, w⟩ := by
    rw [hedges, dget_dput_self]
  have hget21 : dget s₁.edges (r2.index, r1.index) = none := by
    rw [hedges, dget_dput_ne _ _ _ _ hkne, hd21]
  have hge12 : get_edge_by_index s₁.edges r1.index r2.index = some ⟨r1, r2, w⟩ := by
    rw [get_edge_by_index, hget12]
  have hge21 : get_edge_by_index s₁.edges r2.index r1.index = some ⟨r1, r2, w⟩ := by
    rw [get_edge_by_index, hget21, hget12]
  obtain ⟨n1', hn1', href1', _, _⟩ := hx r1.index n1 hn1
  obtain ⟨n2', hn2', href2', _, _⟩ := hx r2.index n2 hn2
  have hm1' : dget s₁.nodeNameMap r1.name = some r1.index := by rw [hmap, hm1]
  have hm2' : dget s₁.nodeNameMap r2.name = some r2.index := by rw [hmap, hm2]
  refine ⟨s₁, hok, ?_, hge12, hge21, ?_, ?_⟩
  · rw [add_edge, if_pos (Or.inr (by rw [hge21]; rfl))]
  · rw [hedges, dput_fresh_append _ _ _ hd12, List.filter_append]
    have hnil : s.edges.filter (fun kv =>
        decide (kv.1 = (r1.index, r2.index) ∨ kv.1 = (r2.index, r1.index))) = [] := by
      rw [List.filter_eq_nil_iff]
      intro kv hkv
      have hmem := List.mem_map_of_mem Prod.fst hkv
      simp only [decide_eq_true_eq]
      rintro (hk | hk)
      · exact (dget_eq_none_iff s.edges (r1.index, r2.index)).mp hd12 (hk ▸ hmem)
      · exact (dget_eq_none_iff s.edges (r2.index, r1.index)).mp hd21 (hk ▸ hmem)
    rw [hnil]
    simp
  · have hgn2 : get_node_by_name noAuth s₁ r2.name false none = (s₁, some n2') := by
      simp only [get_node_by_name, hm2', hn2']
    have hgn1 : get_node_by_name noAuth s₁ r1.name false none = (s₁, some n1') := by
      simp only [get_node_by_name, hm1', hn1']
    have hidx2 : n2'.ref.index = r2.index := by rw [href2', href2]
    have hidx1 : n1'.ref.index = r1.index := by rw [href1', href1]
    simp only [get_edge_by_name, hgn2, hgn1, hidx2, hidx1, hge21]

/-- Nodes `"A"` (index 0) and `"B"` (index 1) on a fresh graph. -/
def st2 : GState :=
  add_node_by_name (add_node_by_name GState.empty (some "A") none) (some "B") none

/-- Witness for C3 at a concrete input (weight `5/2`). -/
theorem addEdge_undirected_idempotent_witness :
    ∃ s₁, add_edge st2 ⟨0, "A", none⟩ ⟨1, "B", none⟩ (5/2) true = .ok s₁ ∧
      add_edge s₁ ⟨1, "B", none⟩ ⟨0, "A", none⟩ (5/2) true = .ok s₁ ∧
      get_edge_by_index s₁.edges 0 1 = some ⟨⟨0, "A", none⟩, ⟨1, "B", none⟩, 5/2⟩ ∧
      get_edge_by_index s₁.edges 1 0 = some ⟨⟨0, "A", none⟩, ⟨1, "B", none⟩, 5/2⟩ ∧
      (s₁.edges.filter (fun kv => kv.1 = (0, 1) ∨ kv.1 = (1, 0))).length = 1 ∧
      get_edge_by_name s₁ "B" "A" = (s₁, some ⟨⟨0, "A", none⟩, ⟨1, "B", none⟩, 5/2⟩) := by
  have h := addEdge_undirected_idempotent st2 ⟨0, "A", none⟩ ⟨1, "B", none⟩
    ⟨⟨0, "A", none⟩, false, false, []⟩ ⟨⟨1, "B", none⟩, false, false, []⟩ (5/2)
    (by norm_num) (by decide) (by decide) (by decide) (by decide) (by decide)
    rfl (by decide) rfl rfl
  simpa using h

/-! ## Idempotence of `pyStrip` -/

theorem stripList_eq_rdrop (l : List Char) :
    stripList l =
      List.rdropWhile Char.isWhitespace (List.dropWhile Char.isWhitespace l) := rfl

theorem stripList_idem (l : List Char) : stripList (stripList l) = stripList l := by
  rw [stripList_eq_rdrop, stripList_eq_rdrop]
  have hdrop : List.dropWhile Char.isWhitespace
      (List.rdropWhile Char.isWhitespace (List.dropWhile Char.isWhitespace l)) =
      List.rdropWhile Char.isWhitespace (List.dropWhile Char.isWhitespace l) := by
    rw [List.dropWhile_eq_self_iff]
    intro hl
    have hpre := List.rdropWhile_prefix Char.isWhitespace
      (List.dropWhile Char.isWhitespace l)
    have hlen : 0 < (List.dropWhile Char.isWhitespace l).length :=
      lt_of_lt_of_le hl hpre.length_le
    have hhead := List.dropWhile_get_zero_not (p := Char.isWhitespace) l hlen
    have heq := hpre.getElem (show 0 <
      (List.rdropWhile Char.isWhitespace
        (List.dropWhile Char.isWhitespace l)).length from hl)
    simpa [List.get_eq_getElem, heq] using hhead
  rw [hdrop, List.rdropWhile_idempotent]

theorem pyStrip_idem (s : String) : pyStrip (pyStrip s) = pyStrip s := by
  have h : (pyStrip s).toList = stripList s.toList := rfl
  rw [pyStrip, h, stripList_idem]
  rfl

/-! ## Helpers for `get_node_by_name` and the database -/

/-- A name that misses both the in-memory map and the cache, looked up
without validation, yields `None` with no state change. -/
theorem get_node_by_name_miss (auth : AuthHook) (s : GState) (name : String)
    (ext : Option String) (hmap : dget s.nodeNameMap name = none)
    (hdb : dbFindNode s.dbNodes name = none) :
    get_node_by_name auth s name false ext = (s, none) := by
  simp [get_node_by_name, hmap, hdb]

theorem dbFindNode_append (d₁ d₂ : List DBNodeR) (m : String)
    (h₁ : dbFindNode d₁ m = none) :
    dbFindNode (d₁ ++ d₂) m = dbFindNode d₂ m := by
  induction d₁ with
  | nil => rfl
  | cons r rest ih =>
    rw [dbFindNode] at h₁ ⊢
    rw [List.cons_append, List.find?_cons] at *
    cases hp : decide (r.name = m) with
    | true => rw [hp] at h₁; cases h₁
    | false =>
      rw [hp] at h₁
      exact ih h₁

theorem internal_add_node_dbNodes_fresh (s : GState) (nm : String)
    (ext : Option String) (c : Bool) (h : dbFindNode s.dbNodes nm = none) :
    (internal_add_node s nm ext c true).dbNodes =
      s.dbNodes ++ [⟨pyStrip nm, (ext.map pyStrip).map pyStrip, false⟩] := by
  rw [internal_add_node]
  simp [h]

/-! ## Claim C5: gapless index assignment -/

/-- The generalized induction behind C5: folding `add_node_by_name` over
valid, distinct-after-stripping names that are fresh for the graph and the
cache appends nodes with consecutive indices, preserves existing entries,
and registers each name in both maps. -/
theorem addAll_spec (names : List String) (s : GState)
    (hval : ∀ nm ∈ names, (pyStrip nm).length ≠ 0)
    (hwf : s.nodes.map Prod.fst = List.range s.nodes.length)
    (hfresh : ∀ nm ∈ names, dget s.nodeNameMap (pyStrip nm) = none ∧
      dbFindNode s.dbNodes (pyStrip nm) = none)
    (hdist : (names.map pyStrip).Nodup) :
    (names.foldl (fun st nm => add_node_by_name st (some nm) none) s).nodes.map
        Prod.fst = List.range (s.nodes.length + names.length) ∧
    (∀ i nd, dget s.nodes i = some nd →
      dget (names.foldl (fun st nm => add_node_by_name st (some nm) none)
        s).nodes i = some nd) ∧
    (∀ k v, dget s.nodeNameMap k = some v →
      dget (names.foldl (fun st nm => add_node_by_name st (some nm) none)
        s).nodeNameMap k = some v) ∧
    (∀ (j : ℕ) (hj : j < names.length), ∃ node : NodeSt,
      dget (names.foldl (fun st nm => add_node_by_name st (some nm) none)
          s).nodeNameMap (pyStrip (names.get ⟨j, hj⟩)) =
        some (s.nodes.length + j) ∧
      dget (names.foldl (fun st nm => add_node_by_name st (some nm) none)
          s).nodes (s.nodes.length + j) = some node ∧
      node.ref.name = pyStrip (names.get ⟨j, hj⟩) ∧
      node.ref.index = s.nodes.length + j) := by
  induction names generalizing s with
  | nil =>
    refine ⟨by simpa using hwf, fun i nd h => h, fun k v h => h, fun j hj => ?_⟩
    exact absurd hj (by simp)
  | cons nm rest ih =>
    have hvnm := hval nm (List.mem_cons_self nm rest)
    obtain ⟨hmapnm, hdbnm⟩ := hfresh nm (List.mem_cons_self nm rest)
    have hstep : add_node_by_name s (some nm) none =
        internal_add_node s (pyStrip nm) none false true := by
      simp only [add_node_by_name, if_neg hvnm,
        get_node_by_name_miss noAuth s (pyStrip nm) none hmapnm hdbnm]
    have hfree : dget s.nodes s.nodes.length = none := by
      rw [dget_eq_none_iff, hwf]
      simp
    have hnodes' : (internal_add_node s (pyStrip nm) none false true).nodes =
        s.nodes ++ [(s.nodes.length,
          ⟨⟨s.nodes.length, pyStrip nm, none⟩, false, false, []⟩)] := by
      rw [internal_add_node_nodes, dput_fresh_append _ _ _ hfree]
      rfl
    have hlen' : (internal_add_node s (pyStrip nm) none false true).nodes.length =
        s.nodes.length + 1 := by
      rw [hnodes']
      simp
    have hwf' : (internal_add_node s (pyStrip nm) none false true).nodes.map
        Prod.fst = List.range ((internal_add_node s (pyStrip nm) none false
          true).nodes.length) := by
      rw [hnodes', List.map_append, List.length_append, hwf]
      simp [List.range_succ]
    have hmap' : (internal_add_node s (pyStrip nm) none false true).nodeNameMap =
        dput s.nodeNameMap (pyStrip nm) s.nodes.length :=
      internal_add_node_nameMap s (pyStrip nm) none false true
    have hdb' : (internal_add_node s (pyStrip nm) none false true).dbNodes =
        s.dbNodes ++ [⟨pyStrip nm, none, false⟩] := by
      rw [internal_add_node_dbNodes_fresh s (pyStrip nm) none false hdbnm,
        pyStrip_idem]
      rfl
    have hnd : pyStrip nm ∉ rest.map pyStrip ∧ (rest.map pyStrip).Nodup := by
      rw [List.map_cons, List.nodup_cons] at hdist
      exact hdist
    have hfresh' : ∀ m ∈ rest,
        dget (internal_add_node s (pyStrip nm) none false true).nodeNameMap
          (pyStrip m) = none ∧
        dbFindNode (internal_add_node s (pyStrip nm) none false true).dbNodes
          (pyStrip m) = none := by
      intro m hm
      have hne : pyStrip m ≠ pyStrip nm := by
        intro hcontra
        exact hnd.1 (hcontra ▸ List.mem_map_of_mem pyStrip hm)
      refine ⟨?_, ?_⟩
      · rw [hmap', dget_dput_ne _ _ _ _ hne]
        exact (hfresh m (List.mem_cons_of_mem nm hm)).1
      · rw [hdb', dbFindNode_append _ _ _ (hfresh m (List.mem_cons_of_mem nm hm)).2]
        have hne' : ¬ (pyStrip nm = pyStrip m) := fun h => hne h.symm
        simp [dbFindNode, List.find?, hne']
    obtain ⟨ihwf, ihnodes, ihmap, ihitems⟩ :=
      ih (internal_add_node s (pyStrip nm) none false true)
        (fun m hm => hval m (List.mem_cons_of_mem nm hm)) hwf' hfresh' hnd.2
    have hfold : (nm :: rest).foldl
        (fun st nm => add_node_by_name st (some nm) none) s =
        rest.foldl (fun st nm => add_node_by_name st (some nm) none)
          (internal_add_node s (pyStrip nm) none false true) := by
      rw [List.foldl_cons, hstep]
    refine ⟨?_, ?_, ?_, ?_⟩
    · rw [hfold, ihwf, hlen']
      congr 1
      simp only [List.length_cons]
      omega
    · intro i nd h
      rw [hfold]
      refine ihnodes i nd ?_
      rw [hnodes']
      exact dget_append_left _ _ _ _ h
    · intro k v h
      rw [hfold]
      refine ihmap k v ?_
      rw [hmap']
      have hkne : k ≠ pyStrip nm := by
        intro hcontra
        rw [hcontra, hmapnm] at h
        cases h
      rw [dget_dput_ne _ _ _ _ hkne, h]
    · intro j hj
      rw [hfold]
      cases j with
      | zero =>
        refine ⟨⟨⟨s.nodes.length, pyStrip nm, none⟩, false, false, []⟩, ?_, ?_,
          rfl, by simp⟩
        · have hself : dget (internal_add_node s (pyStrip nm) none false
              true).nodeNameMap (pyStrip nm) = some s.nodes.length := by
            rw [hmap', dget_dput_self]
          simpa using ihmap (pyStrip nm) s.nodes.length hself
        · have hself : dget (internal_add_node s (pyStrip nm) none false
              true).nodes s.nodes.length =
              some ⟨⟨s.nodes.length, pyStrip nm, none⟩, false, false, []⟩ := by
            rw [internal_add_node_nodes, dget_dput_self]
            rfl
          simpa using ihnodes s.nodes.length _ hself
      | succ j' =>
        have hj' : j' < rest.length := by simpa using hj
        obtain ⟨node, hmapj, hnodej, hname, hidx⟩ := ihitems j' hj'
        have harith : (internal_add_node s (pyStrip nm) none false
            true).nodes.length + j' = s.nodes.length + (j' + 1) := by
          rw [hlen']
          omega
        refine ⟨node, ?_, ?_, hname, by rw [← harith, hidx]⟩
        · rw [← harith]
          exact hmapj
        · rw [← harith]
          exact hnodej

/-- **C5.**  After N successful distinct `addNode` calls on a fresh graph,
the set of node indices is exactly `{0, ..., N-1}` (the keys of the
index map are `range N` in creation order): the j-th created node receives
index j — the node count at the moment of its creation — and both the
index map and the name map contain it. -/
theorem addNode_indices_gapless (names : List String)
    (hval : ∀ nm ∈ names, (pyStrip nm).length ≠ 0)
    (hdist : (names.map pyStrip).Nodup) :
    (names.foldl (fun st nm => add_node_by_name st (some nm) none)
        GState.empty).nodes.map Prod.fst = List.range names.length ∧
    (∀ (j : ℕ) (hj : j < names.length), ∃ node : NodeSt,
      dget (names.foldl (fun st nm => add_node_by_name st (some nm) none)
          GState.empty).nodeNameMap (pyStrip (names.get ⟨j, hj⟩)) = some j ∧
      dget (names.foldl (fun st nm => add_node_by_name st (some nm) none)
          GState.empty).nodes j = some node ∧
      node.ref.name = pyStrip (names.get ⟨j, hj⟩) ∧
      node.ref.index = j) := by
  obtain ⟨hwf, _, _, hitems⟩ := addAll_spec names GState.empty hval rfl
    (fun nm _ => ⟨rfl, rfl⟩) hdist
  refine ⟨by simpa [GState.empty] using hwf, fun j hj => ?_⟩
  obtain ⟨node, h₁, h₂, h₃, h₄⟩ := hitems j hj
  exact ⟨node, by simpa [GState.empty] using h₁, by simpa [GState.empty] using h₂,
    h₃, by simpa [GState.empty] using h₄⟩

/-- Witness for C5 at a concrete input (three names, one needing a trim). -/
theorem addNode_indices_gapless_witness :
    (["A", " B", "C"].foldl (fun st nm => add_node_by_name st (some nm) none)
        GState.empty).nodes.map Prod.fst = List.range 3 ∧
    ∃ node : NodeSt,
      dget (["A", " B", "C"].foldl
          (fun st nm => add_node_by_name st (some nm) none)
          GState.empty).nodeNameMap (pyStrip " B") = some 1 ∧
      dget (["A", " B", "C"].foldl
          (fun st nm => add_node_by_name st (some nm) none)
          GState.empty).nodes 1 = some node ∧
      node.ref.name = pyStrip " B" ∧ node.ref.index = 1 := by
  have h := addNode_indices_gapless ["A", " B", "C"] (by decide) (by decide)
  exact ⟨h.1, h.2 1 (by decide)⟩

/-! ## Preservation machinery for the lazy-loading claims -/

/-- The node registry is well-formed: its keys are exactly `0 .. len-1` in
insertion order (true of every registry built through `_internal_add_node`,
which always assigns `index = len(self)`). -/
def NodesWF (s : GState) : Prop :=
  s.nodes.map Prod.fst = List.range s.nodes.length

/-- Well-formedness transports to the new state and every registered node
object survives with its identity and loading flags intact. -/
def Pres (s s' : GState) : Prop := NodesWF s → NodesWF s' ∧ NodesExtend s s'

theorem pres_refl (s : GState) : Pres s s := fun h => ⟨h, nodesExtend_refl s⟩

theorem pres_trans {a b c : GState} (h₁ : Pres a b) (h₂ : Pres b c) :
    Pres a c := by
  intro h
  obtain ⟨hb, hx⟩ := h₁ h
  obtain ⟨hc, hy⟩ := h₂ hb
  exact ⟨hc, nodesExtend_trans hx hy⟩

theorem pres_of_keys {s s' : GState}
    (hk : s'.nodes.map Prod.fst = s.nodes.map Prod.fst)
    (hx : NodesExtend s s') : Pres s s' := by
  intro hwf
  have hlen : s'.nodes.length = s.nodes.length := by
    have h := congrArg List.length hk
    simpa using h
  refine ⟨?_, hx⟩
  rw [NodesWF, hk, hlen]
  exact hwf

theorem internal_add_node_pres (s : GState) (nm : String) (ext : Option String)
    (c a : Bool) : Pres s (internal_add_node s nm ext c a) := by
  intro hwf
  have hfree : dget s.nodes s.nodes.length = none := by
    rw [dget_eq_none_iff, hwf]
    simp
  have hnodes : (internal_add_node s nm ext c a).nodes =
      s.nodes ++ [(s.nodes.length,
        ⟨⟨s.nodes.length, nm, ext.map pyStrip⟩, false, c, []⟩)] := by
    rw [internal_add_node_nodes, dput_fresh_append _ _ _ hfree]
  constructor
  · rw [NodesWF, hnodes, List.map_append, List.length_append, hwf]
    simp [List.range_succ]
  · intro j nd h
    refine ⟨nd, ?_, rfl, rfl, rfl⟩
    rw [hnodes]
    exact dget_append_left _ _ _ _ h

/-- The graph's name-validation hook leaves the registry well-formed and the
registered node objects intact (true of the base hook, which only performs a
validation-free lookup, and of the loops of the subclass hooks, which only
add nodes and edges through the registry operations). -/
def AuthPres (auth : AuthHook) : Prop := ∀ s nm, Pres s (auth s nm).1

theorem noAuth_pres : AuthPres noAuth := fun s _ => pres_refl s

theorem get_node_by_name_pres (auth : AuthHook) (hA : AuthPres auth)
    (s : GState) (name : String) (cv : Bool) (ext : Option String) :
    Pres s (get_node_by_name auth s name cv ext).1 := by
  cases hm : dget s.nodeNameMap name with
  | some idx =>
    simp only [get_node_by_name, hm]
    exact pres_refl s
  | none =>
    cases hdb : dbFindNode s.dbNodes name with
    | some dbn =>
      simp only [get_node_by_name, hm, hdb]
      exact internal_add_node_pres s dbn.name dbn.externalId
        dbn.areNeighborsCached false
    | none =>
      cases cv with
      | false =>
        simp only [get_node_by_name, hm, hdb]
        exact pres_refl s
      | true =>
        cases hauth : auth s name with
        | mk s₁ an? =>
          have hp₁ : Pres s s₁ := by
            have h := hA s name
            rw [hauth] at h
            exact h
          cases an? with
          | none =>
            simp only [get_node_by_name, hm, hdb, hauth]
            exact hp₁
          | some an =>
            cases hdb₂ : dbFindNode s₁.dbNodes an with
            | none =>
              simp only [get_node_by_name, hm, hdb, hauth, hdb₂]
              exact pres_trans hp₁ (internal_add_node_pres s₁ an ext false true)
            | some dbn₂ =>
              simp only [get_node_by_name, hm, hdb, hauth, hdb₂]
              exact pres_trans hp₁ (internal_add_node_pres s₁ dbn₂.name
                dbn₂.externalId dbn₂.areNeighborsCached false)

theorem base_auth_pres : AuthPres base_auth := by
  intro s nm
  cases hg : get_node_by_name noAuth s nm false none with
  | mk s₁ nd? =>
    have h := get_node_by_name_pres noAuth noAuth_pres s nm false none
    rw [hg] at h
    simpa [base_auth, hg] using h

theorem add_node_by_name_pres (s : GState) (nm : Option String)
    (ext : Option String) : Pres s (add_node_by_name s nm ext) := by
  cases nm with
  | none => exact pres_refl s
  | some n =>
    by_cases hv : (pyStrip n).length = 0
    · rw [add_node_by_name, if_pos hv]
      exact pres_refl s
    · rw [add_node_by_name, if_neg hv]
      cases hg : get_node_by_name noAuth s (pyStrip n) false ext with
      | mk s₁ nd? =>
        have hp₁ : Pres s s₁ := by
          have h := get_node_by_name_pres noAuth noAuth_pres s (pyStrip n) false ext
          rw [hg] at h
          exact h
        cases nd? with
        | some _ => exact hp₁
        | none => exact pres_trans hp₁ (internal_add_node_pres s₁ (pyStrip n) ext false true)

theorem stateAddNeighbor_pres (s : GState) (i : ℕ) (e : EdgeR) :
    Pres s (exState id (stateAddNeighbor s i e)) := by
  obtain ⟨s', hok, _, _, _, _, hx, hk⟩ := stateAddNeighbor_spec s i e
  rw [hok]
  exact pres_of_keys hk hx

theorem add_edge_pres (s : GState) (src tgt : NodeRef) (w : ℚ) (b : Bool) :
    Pres s (exState id (add_edge s src tgt w b)) := by
  rw [add_edge]
  by_cases hguard : src.index = tgt.index ∨
      (get_edge_by_index s.edges src.index tgt.index).isSome
  · rw [if_pos hguard]
    exact pres_refl s
  · rw [if_neg hguard]
    by_cases hw : w ≤ 0
    · rw [edgeInit, if_pos hw]
      exact pres_refl s
    · by_cases hne : src.index = tgt.index
      · rw [edgeInit, if_neg hw, if_pos hne]
        exact pres_refl s
      · obtain ⟨s₁, h1, he1, hm1, hdn1, hde1, hx1, hk1⟩ :=
          stateAddNeighbor_spec s src.index ⟨src, tgt, w⟩
        obtain ⟨s₂, h2, he2, hm2, hdn2, hde2, hx2, hk2⟩ :=
          stateAddNeighbor_spec s₁ tgt.index ⟨src, tgt, w⟩
        have hp : Pres s s₂ :=
          pres_trans (pres_of_keys hk1 hx1) (pres_of_keys hk2 hx2)
        rw [edgeInit, if_neg hw, if_neg hne]
        simp only [h1, h2]
        have hpall : ∀ t : GState, t.nodes = s₂.nodes → Pres s t := by
          intro t ht
          refine pres_of_keys ?_ ?_
          · rw [ht]
            exact hk2.trans hk1
          · intro j nd h
            obtain ⟨nd', h', hr, hc, hl⟩ := (nodesExtend_trans hx1 hx2) j nd h
            exact ⟨nd', by rw [ht]; exact h', hr, hc, hl⟩
        cases b with
        | false => exact hpall _ rfl
        | true =>
          cases hfind : dbFindEdge s₂.dbEdges src.name tgt.name with
          | none =>
            by_cases hnm : src.name = tgt.name
            · have hnew : dbEdgeNew src.name tgt.name w =
                  .error (.valueError "Invalid source and target name pair") := by
                rw [dbEdgeNew, if_pos hnm]
              simp only [hfind, hnew]
              exact hpall _ rfl
            · cases hlt : pyStrLt src.name tgt.name with
              | true =>
                have hnew : dbEdgeNew src.name tgt.name w =
                    .ok ⟨src.name, tgt.name, w⟩ := by
                  rw [dbEdgeNew, if_neg hnm, if_pos hlt]
                simp only [hfind, hnew]
                exact hpall _ rfl
              | false =>
                have hnew : dbEdgeNew src.name tgt.name w =
                    .ok ⟨tgt.name, src.name, w⟩ := by
                  rw [dbEdgeNew, if_neg hnm, if_neg (by simp [hlt])]
                simp only [hfind, hnew]
                exact hpall _ rfl
          | some dbe =>
            by_cases hwne : dbe.weight ≠ w
            · simp only [hfind, if_pos hwne]
              exact hpall _ rfl
            · simp only [hfind, if_neg hwne]
              exact hpall _ rfl

theorem graph_add_edge_pres (s : GState) (src tgt : NodeRef) (w : ℚ)
    (b : Bool) : Pres s (exState id (graph_add_edge s src tgt w b)) := by
  rw [graph_add_edge]
  by_cases hg : (get_edge s src tgt).isSome
  · rw [if_pos hg]
    exact pres_refl s
  · rw [if_neg hg]
    exact add_edge_pres s src tgt w b

theorem hydrateLoop_pres (selfRef : NodeRef) (l : List DBNodeR) (s : GState) :
    Pres s (exState id (hydrateLoop selfRef s l)) := by
  induction l generalizing s with
  | nil => exact pres_refl s
  | cons dbn rest ih =>
    rw [hydrateLoop]
    have hp₁ : Pres s (add_node_by_name s (some dbn.name) dbn.externalId) :=
      add_node_by_name_pres s (some dbn.name) dbn.externalId
    cases hg : get_node_by_name noAuth
        (add_node_by_name s (some dbn.name) dbn.externalId) dbn.name false none with
    | mk s₂ nbr? =>
      have hp₂ : Pres s s₂ := by
        have h := get_node_by_name_pres noAuth noAuth_pres
          (add_node_by_name s (some dbn.name) dbn.externalId) dbn.name false none
        rw [hg] at h
        exact pres_trans hp₁ h
      cases nbr? with
      | none =>
        simp only [hg]
        exact hp₂
      | some nbr =>
        simp only [hg]
        cases hge : graph_add_edge s₂ selfRef nbr.ref 1 false with
        | error err =>
          have h := graph_add_edge_pres s₂ selfRef nbr.ref 1 false
          rw [hge] at h
          simp only [hge]
          exact pres_trans hp₂ h
        | ok s₃ =>
          have h := graph_add_edge_pres s₂ selfRef nbr.ref 1 false
          rw [hge] at h
          simp only [hge]
          exact pres_trans hp₂ (pres_trans h (ih s₃))

theorem fetchLoop_pres (auth : AuthHook) (hA : AuthPres auth)
    (selfRef : NodeRef) (l : List (String × Option String)) (s : GState) :
    Pres s (exState id (fetchLoop auth selfRef s l)) := by
  induction l generalizing s with
  | nil => exact pres_refl s
  | cons item rest ih =>
    obtain ⟨nm, ext⟩ := item
    rw [fetchLoop]
    cases hg : get_node_by_name auth s nm true ext with
    | mk s₁ nbr? =>
      have hp₁ : Pres s s₁ := by
        have h := get_node_by_name_pres auth hA s nm true ext
        rw [hg] at h
        exact h
      cases nbr? with
      | none =>
        simp only [hg]
        exact hp₁
      | some nbr =>
        simp only [hg]
        cases hge : graph_add_edge s₁ selfRef nbr.ref 1 true with
        | error err =>
          have h := graph_add_edge_pres s₁ selfRef nbr.ref 1 true
          rw [hge] at h
          simp only [hge]
          exact pres_trans hp₁ h
        | ok s₂ =>
          have h := graph_add_edge_pres s₁ selfRef nbr.ref 1 true
          rw [hge] at h
          simp only [hge]
          exact pres_trans hp₁ (pres_trans h (ih s₂))

theorem patternFetch_pres (api : ExtApi) (auth : AuthHook) (hA : AuthPres auth)
    (s : GState) (selfRef : NodeRef) :
    Pres s (exState id (patternFetch api auth s selfRef)) := by
  rw [patternFetch]
  cases api selfRef.name with
  | error _ => exact pres_refl s
  | ok items => exact fetchLoop_pres auth hA selfRef items s

/-! ## Analysis of the lazy-loading steps -/

theorem updateNode_wf (s : GState) (i : ℕ) (f : NodeSt → NodeSt)
    (hwf : NodesWF s) : NodesWF (updateNode s i f) := by
  have hk := dupd_keys s.nodes i f
  have hlen : (dupd s.nodes i f).length = s.nodes.length := by
    have h := congrArg List.length hk
    simpa using h
  rw [NodesWF]
  show (dupd s.nodes i f).map Prod.fst = List.range (dupd s.nodes i f).length
  rw [hk, hlen]
  exact hwf

/-- Whatever happens inside `_load_neighbors_from_database` — a missing
record raising mid-hydration included — the node's `_are_neighbors_loaded`
flag is true in the resulting state (it is assigned before the database
read), its `are_neighbors_cached` flag and identity are untouched, and the
registry stays well-formed. -/
theorem load_db_spec (s : GState) (i : ℕ) (n : NodeSt) (hwf : NodesWF s)
    (hn : dget s.nodes i = some n) :
    NodesWF (exState id (load_neighbors_from_database s i)) ∧
    ∃ n', dget (exState id (load_neighbors_from_database s i)).nodes i =
        some n' ∧
      n'.areNeighborsLoaded = true ∧
      n'.areNeighborsCached = n.areNeighborsCached ∧ n'.ref = n.ref := by
  have h0 : dget (updateNode s i
      (fun nd => { nd with areNeighborsLoaded := true })).nodes i =
      some { n with areNeighborsLoaded := true } := by
    have h := dget_dupd_self s.nodes i
      (fun nd => { nd with areNeighborsLoaded := true })
    rw [hn] at h
    simpa using h
  have hwf0 : NodesWF (updateNode s i
      (fun nd => { nd with areNeighborsLoaded := true })) :=
    updateNode_wf s i _ hwf
  rw [load_neighbors_from_database]
  simp only [h0]
  cases hdbf : dbFindNode (updateNode s i
      (fun nd => { nd with areNeighborsLoaded := true })).dbNodes
      ({ n with areNeighborsLoaded := true } : NodeSt).ref.name with
  | none =>
    simp only [hdbf]
    exact ⟨hwf0, { n with areNeighborsLoaded := true }, h0, rfl, rfl, rfl⟩
  | some dbn =>
    simp only [hdbf]
    have hp := hydrateLoop_pres ({ n with areNeighborsLoaded := true } : NodeSt).ref
      (dbNeighbors (updateNode s i
        (fun nd => { nd with areNeighborsLoaded := true }))
        ({ n with areNeighborsLoaded := true } : NodeSt).ref.name)
      (updateNode s i (fun nd => { nd with areNeighborsLoaded := true }))
    obtain ⟨hwf', hx⟩ := hp hwf0
    obtain ⟨n', h', hr, hc, hl⟩ := hx i _ h0
    exact ⟨hwf', n', h', hl, hc, hr⟩

theorem dbSetNodeCached_find_self (db : List DBNodeR) (nm : String)
    (r : DBNodeR) (h : dbFindNode db nm = some r) :
    dbFindNode (dbSetNodeCached db nm) nm =
      some { r with areNeighborsCached := true } := by
  induction db with
  | nil => simp [dbFindNode] at h
  | cons q rest ih =>
    by_cases hq : q.name = nm
    · rw [dbFindNode, List.find?_cons_of_pos _ (by simpa using hq)] at h
      cases h
      rw [dbSetNodeCached, if_pos hq, dbFindNode,
        List.find?_cons_of_pos _ (by simpa using hq)]
    · rw [dbFindNode, List.find?_cons_of_neg _ (by simpa using hq)] at h
      rw [dbSetNodeCached, if_neg hq, dbFindNode,
        List.find?_cons_of_neg _ (by simpa using hq)]
      exact ih h

/-- A successful `_load_neighbors` leaves the registry well-formed, makes at
most one external-source call, and leaves the node's
`are_neighbors_cached` flag true. -/
theorem load_neighbors_ok_spec (fetch : ExtFetch)
    (hfetch : ∀ s' ref, Pres s' (exState id (fetch s' ref)))
    (s : GState) (i : ℕ) (n : NodeSt) (hwf : NodesWF s)
    (hn : dget s.nodes i = some n)
    (s₁ : GState) (c h : ℕ)
    (hok : load_neighbors fetch s i = .ok (s₁, c, h)) :
    NodesWF s₁ ∧ c ≤ 1 ∧
    ∃ nd, dget s₁.nodes i = some nd ∧ nd.areNeighborsCached = true := by
  rw [load_neighbors] at hok
  simp only [hn] at hok
  cases hcached : n.areNeighborsCached with
  | true =>
    simp only [hcached, if_true] at hok
    simp only [hn] at hok
    cases hloaded : n.areNeighborsLoaded with
    | true =>
      simp only [hloaded, if_true] at hok
      rw [Except.ok.injEq, Prod.mk.injEq, Prod.mk.injEq] at hok
      obtain ⟨hs, hc, hh⟩ := hok
      subst hs hc hh
      exact ⟨hwf, by omega, n, hn, hcached⟩
    | false =>
      simp only [hloaded, Bool.false_eq_true, if_false] at hok
      cases hdb : load_neighbors_from_database s i with
      | error err =>
        rw [hdb] at hok
        cases hok
      | ok s'' =>
        rw [hdb] at hok
        rw [Except.ok.injEq, Prod.mk.injEq, Prod.mk.injEq] at hok
        obtain ⟨hs, hc, hh⟩ := hok
        subst hs hc hh
        have hspec := load_db_spec s i n hwf hn
        rw [hdb] at hspec
        obtain ⟨hwf', nd, hnd, _, hc', _⟩ := hspec
        exact ⟨hwf', by omega, nd, hnd, hc'.trans hcached⟩
  | false =>
    simp only [hcached, Bool.false_eq_true, if_false] at hok
    cases hf : fetch s n.ref with
    | error err =>
      rw [hf] at hok
      cases hok
    | ok sf =>
      rw [hf] at hok
      have hfp := hfetch s n.ref
      rw [hf] at hfp
      obtain ⟨hwfsf, hxsf⟩ := hfp hwf
      obtain ⟨nf, hnf, hrf, hcf, hlf⟩ := hxsf i n hn
      cases hdbf : dbFindNode sf.dbNodes n.ref.name with
      | none =>
        simp only [hdbf] at hok
        cases hok
      | some dbn =>
        simp only [hdbf] at hok
        have h3 : dget (updateNode
            { sf with dbNodes := dbSetNodeCached sf.dbNodes n.ref.name } i
            (fun nd => { nd with areNeighborsCached := true })).nodes i =
            some { nf with areNeighborsCached := true } := by
          have hnf' : dget sf.nodes i = some nf := hnf
          have hh := dget_dupd_self
            ({ sf with dbNodes := dbSetNodeCached sf.dbNodes n.ref.name} :
              GState).nodes i (fun nd => { nd with areNeighborsCached := true })
          show dget (dupd _ i _) i = _
          rw [hh]
          show (dget sf.nodes i).map _ = _
          rw [hnf']
          rfl
        have hwf3 : NodesWF (updateNode
            { sf with dbNodes := dbSetNodeCached sf.dbNodes n.ref.name } i
            (fun nd => { nd with areNeighborsCached := true })) :=
          updateNode_wf _ i _ hwfsf
        simp only [h3] at hok
        cases hl3 : nf.areNeighborsLoaded with
        | true =>
          simp only [hl3, if_true] at hok
          rw [Except.ok.injEq, Prod.mk.injEq, Prod.mk.injEq] at hok
          obtain ⟨hs, hc, hh⟩ := hok
          subst hc hh
          rw [← hs]
          exact ⟨hwf3, by omega, _, h3, rfl⟩
        | false =>
          simp only [hl3, Bool.false_eq_true, if_false] at hok
          cases hdb2 : load_neighbors_from_database (updateNode
              { sf with dbNodes := dbSetNodeCached sf.dbNodes n.ref.name } i
              (fun nd => { nd with areNeighborsCached := true })) i with
          | error err =>
            rw [hdb2] at hok
            cases hok
          | ok s'' =>
            rw [hdb2] at hok
            rw [Except.ok.injEq, Prod.mk.injEq, Prod.mk.injEq] at hok
            obtain ⟨hs, hc, hh⟩ := hok
            subst hs hc hh
            have hspec := load_db_spec _ i _ hwf3 h3
            rw [hdb2] at hspec
            obtain ⟨hwf', nd, hnd, _, hc', _⟩ := hspec
            exact ⟨hwf', by omega, nd, hnd, hc'⟩

/-! ## Claim C1: at-most-once external fetch per process -/

/-- **C1.**  Resolving a node's neighbors twice in the same process calls
the External Neighbor Source at most once: a successful `_load_neighbors`
makes at most one `_load_neighbors_from_external_source` call and leaves
`are_neighbors_cached` true, so any later successful resolution makes zero
external calls. -/
theorem loadNeighbors_single_flight (api : ExtApi) (auth : AuthHook)
    (hA : AuthPres auth) (s : GState) (i : ℕ) (n : NodeSt)
    (hwf : NodesWF s) (hn : dget s.nodes i = some n)
    (s₁ : GState) (c₁ h₁ : ℕ)
    (h1 : load_neighbors (patternFetch api auth) s i = .ok (s₁, c₁, h₁)) :
    c₁ ≤ 1 ∧
    ∀ s₂ c₂ h₂,
      load_neighbors (patternFetch api auth) s₁ i = .ok (s₂, c₂, h₂) →
      c₂ = 0 := by
  have hfetch : ∀ s' ref, Pres s' (exState id (patternFetch api auth s' ref)) :=
    fun s' ref => patternFetch_pres api auth hA s' ref
  obtain ⟨hwf₁, hc₁, nd, hnd, hcached⟩ :=
    load_neighbors_ok_spec _ hfetch s i n hwf hn s₁ c₁ h₁ h1
  refine ⟨hc₁, fun s₂ c₂ h₂ h2 => ?_⟩
  rw [load_neighbors] at h2
  simp only [hnd, hcached, if_true] at h2
  cases hld : nd.areNeighborsLoaded with
  | true =>
    simp only [hld, if_true] at h2
    rw [Except.ok.injEq, Prod.mk.injEq, Prod.mk.injEq] at h2
    exact h2.2.1.symm
  | false =>
    simp only [hld, Bool.false_eq_true, if_false] at h2
    cases hdb : load_neighbors_from_database s₁ i with
    | error e =>
      rw [hdb] at h2
      cases h2
    | ok s'' =>
      rw [hdb] at h2
      rw [Except.ok.injEq, Prod.mk.injEq, Prod.mk.injEq] at h2
      exact h2.2.1.symm

/-- A registered node `"A"` with an (uncached) database record. -/
def stW : GState :=
  ⟨[(0, ⟨⟨0, "A", none⟩, false, false, []⟩)], [("A", 0)], [],
    [⟨"A", none, false⟩], []⟩

/-- `stW` after one full neighbor resolution with an empty external source:
both flags up, database flag committed. -/
def stW1 : GState :=
  ⟨[(0, ⟨⟨0, "A", none⟩, true, true, []⟩)], [("A", 0)], [],
    [⟨"A", none, true⟩], []⟩

/-- An External Neighbor Source that returns no neighbors. -/
def apiEmpty : ExtApi := fun _ => .ok []

/-- Witness for C1 at a concrete input: the first resolution on `stW` makes
one external call and yields `stW1`. -/
theorem loadNeighbors_single_flight_witness :
    (1 : ℕ) ≤ 1 ∧
    ∀ s₂ c₂ h₂,
      load_neighbors (patternFetch apiEmpty noAuth) stW1 0 = .ok (s₂, c₂, h₂) →
      c₂ = 0 :=
  loadNeighbors_single_flight apiEmpty noAuth noAuth_pres stW 0
    ⟨⟨0, "A", none⟩, false, false, []⟩ rfl rfl stW1 1 1 rfl

/-! ## Claim C9: local hydration is entered at most once -/

/-- **C9.**  `_load_neighbors_from_database` sets `_are_neighbors_loaded`
before any database read or edge creation, so the flag is true in the
resulting state even when the database read raises mid-hydration; hence a
node whose flag is already up never re-enters local hydration during a
later `_load_neighbors`, whatever the external-fetch step does (only that
step is retried, not the hydration step). -/
theorem hydration_entered_once :
    (∀ (s : GState) (i : ℕ) (n : NodeSt), NodesWF s → dget s.nodes i = some n →
      ∃ n', dget (exState id (load_neighbors_from_database s i)).nodes i =
          some n' ∧ n'.areNeighborsLoaded = true) ∧
    (∀ (api : ExtApi) (auth : AuthHook), AuthPres auth →
      ∀ (s : GState) (i : ℕ) (n : NodeSt), NodesWF s →
        dget s.nodes i = some n → n.areNeighborsLoaded = true →
        ∀ s' c h,
          load_neighbors (patternFetch api auth) s i = .ok (s', c, h) →
          h = 0) := by
  constructor
  · intro s i n hwf hn
    obtain ⟨_, n', h', hl, _, _⟩ := load_db_spec s i n hwf hn
    exact ⟨n', h', hl⟩
  · intro api auth hA s i n hwf hn hloaded s' c h hok
    rw [load_neighbors] at hok
    simp only [hn] at hok
    cases hcached : n.areNeighborsCached with
    | true =>
      simp only [hcached, if_true] at hok
      simp only [hn, hloaded, if_true] at hok
      rw [Except.ok.injEq, Prod.mk.injEq, Prod.mk.injEq] at hok
      exact hok.2.2.symm
    | false =>
      simp only [hcached, Bool.false_eq_true, if_false] at hok
      cases hf : patternFetch api auth s n.ref with
      | error err =>
        rw [hf] at hok
        cases hok
      | ok sf =>
        rw [hf] at hok
        have hfp := patternFetch_pres api auth hA s n.ref
        rw [hf] at hfp
        obtain ⟨hwfsf, hxsf⟩ := hfp hwf
        obtain ⟨nf, hnf, hrf, hcf, hlf⟩ := hxsf i n hn
        cases hdbf : dbFindNode sf.dbNodes n.ref.name with
        | none =>
          simp only [hdbf] at hok
          cases hok
        | some dbn =>
          simp only [hdbf] at hok
          have hnf' : dget sf.nodes i = some nf := hnf
          have h3 : dget (updateNode
              { sf with dbNodes := dbSetNodeCached sf.dbNodes n.ref.name } i
              (fun nd => { nd with areNeighborsCached := true })).nodes i =
              some { nf with areNeighborsCached := true } := by
            have hh := dget_dupd_self
              ({ sf with dbNodes := dbSetNodeCached sf.dbNodes n.ref.name} :
                GState).nodes i (fun nd => { nd with areNeighborsCached := true })
            show dget (dupd _ i _) i = _
            rw [hh]
            show (dget sf.nodes i).map _ = _
            rw [hnf']
            rfl
          simp only [h3] at hok
          have hl3 : nf.areNeighborsLoaded = true := hlf.trans hloaded
          simp only [hl3, if_true] at hok
          rw [Except.ok.injEq, Prod.mk.injEq, Prod.mk.injEq] at hok
          exact hok.2.2.symm

/-- Witness for C9 at a concrete input. -/
theorem hydration_entered_once_witness :
    (∃ n', dget (exState id (load_neighbors_from_database stW 0)).nodes 0 =
        some n' ∧ n'.areNeighborsLoaded = true) ∧
    ∀ s' c h,
      load_neighbors (patternFetch apiEmpty noAuth) stW1 0 = .ok (s', c, h) →
      h = 0 :=
  ⟨hydration_entered_once.1 stW 0 ⟨⟨0, "A", none⟩, false, false, []⟩ rfl rfl,
   hydration_entered_once.2 apiEmpty noAuth noAuth_pres stW1 0
     ⟨⟨0, "A", none⟩, true, true, []⟩ rfl rfl rfl⟩

/-! ## Claim C2: failure propagation and retry -/

theorem dbNeighbors_nil (s : GState) (name : String)
    (hnoedges : ∀ e ∈ s.dbEdges, e.sourceName ≠ name ∧ e.targetName ≠ name) :
    dbNeighbors s name = [] := by
  rw [dbNeighbors]
  have ht : s.dbEdges.filter (fun e => decide (e.targetName = name)) = [] := by
    rw [List.filter_eq_nil_iff]
    intro e he
    simpa using (hnoedges e he).2
  have hsrc : s.dbEdges.filter (fun e => decide (e.sourceName = name)) = [] := by
    rw [List.filter_eq_nil_iff]
    intro e he
    simpa using (hnoedges e he).1
  rw [ht, hsrc]
  simp

/-- `_load_neighbors_from_database` on a node whose record exists and which
has no persisted edges: it just sets the local flag. -/
theorem load_db_on_clean (s : GState) (i : ℕ) (n : NodeSt) (r : DBNodeR)
    (hn : dget s.nodes i = some n)
    (hfind : dbFindNode s.dbNodes n.ref.name = some r)
    (hnoedges : ∀ e ∈ s.dbEdges,
      e.sourceName ≠ n.ref.name ∧ e.targetName ≠ n.ref.name) :
    load_neighbors_from_database s i =
      .ok (updateNode s i (fun nd => { nd with areNeighborsLoaded := true })) := by
  rw [load_neighbors_from_database]
  have h0 : dget (updateNode s i
      (fun nd => { nd with areNeighborsLoaded := true })).nodes i =
      some { n with areNeighborsLoaded := true } := by
    show dget (dupd _ _ _) _ = _
    rw [dget_dupd_self, hn]
    rfl
  simp only [h0]
  have hfind' : dbFindNode (updateNode s i
      (fun nd => { nd with areNeighborsLoaded := true })).dbNodes
      ({ n with areNeighborsLoaded := true } : NodeSt).ref.name = some r := hfind
  simp only [hfind']
  have hdbn0 : dbNeighbors (updateNode s i
      (fun nd => { nd with areNeighborsLoaded := true }))
      ({ n with areNeighborsLoaded := true } : NodeSt).ref.name = [] :=
    dbNeighbors_nil _ _ (fun e he => hnoedges e he)
  simp only [hdbn0]
  rfl

/-- **C2.**  When the External Neighbor Source raises during
`_load_neighbors`, the exception propagates and the state — in particular
the node's in-memory flag and its database record — is exactly the input
state, so the flag stays false both in memory and in the cache and the next
resolution retries the fetch; a retry after the source recovers (here:
returning no neighbors, on a node with a database record and no persisted
edges) performs the fetch again, succeeds, and persists the flag both in
memory and in the database. -/
theorem loadNeighbors_failure_and_retry (api api₂ : ExtApi) (auth : AuthHook)
    (s : GState) (i : ℕ) (n : NodeSt) (dbn : DBNodeR)
    (hn : dget s.nodes i = some n)
    (hcached : n.areNeighborsCached = false)
    (hloaded : n.areNeighborsLoaded = false)
    (hfail : api n.ref.name = .error ())
    (hrec : api₂ n.ref.name = .ok [])
    (hdbn : dbFindNode s.dbNodes n.ref.name = some dbn)
    (hnoedges : ∀ e ∈ s.dbEdges,
      e.sourceName ≠ n.ref.name ∧ e.targetName ≠ n.ref.name) :
    load_neighbors (patternFetch api auth) s i = .error (.extSourceError, s) ∧
    ∃ s', load_neighbors (patternFetch api₂ auth) s i = .ok (s', 1, 1) ∧
      (∃ nd, dget s'.nodes i = some nd ∧ nd.areNeighborsCached = true) ∧
      dbFindNode s'.dbNodes n.ref.name =
        some { dbn with areNeighborsCached := true } ∧
      s'.dbEdges = s.dbEdges ∧ s'.edges = s.edges := by
  constructor
  · have hfetchfail : patternFetch api auth s n.ref = .error (.extSourceError, s) := by
      rw [patternFetch, hfail]
    rw [load_neighbors]
    simp only [hn, hcached, Bool.false_eq_true, if_false, hfetchfail]
  · have hfetchok : patternFetch api₂ auth s n.ref = .ok s := by
      rw [patternFetch, hrec]
      rfl
    refine ⟨updateNode (updateNode
        { s with dbNodes := dbSetNodeCached s.dbNodes n.ref.name } i
        (fun nd => { nd with areNeighborsCached := true })) i
        (fun nd => { nd with areNeighborsLoaded := true }), ?_, ?_, ?_, rfl, rfl⟩
    · rw [load_neighbors]
      simp only [hn, hcached, Bool.false_eq_true, if_false, hfetchok, hdbn]
      have h3 : dget (updateNode
          { s with dbNodes := dbSetNodeCached s.dbNodes n.ref.name } i
          (fun nd => { nd with areNeighborsCached := true })).nodes i =
          some { n with areNeighborsCached := true } := by
        show dget (dupd _ _ _) _ = _
        rw [dget_dupd_self]
        show (dget s.nodes i).map _ = _
        rw [hn]
        rfl
      rw [h3]
      have hdbload := load_db_on_clean
        (updateNode { s with dbNodes := dbSetNodeCached s.dbNodes n.ref.name } i
          (fun nd => { nd with areNeighborsCached := true })) i
        { n with areNeighborsCached := true }
        { dbn with areNeighborsCached := true } h3
        (dbSetNodeCached_find_self s.dbNodes n.ref.name dbn hdbn)
        (fun e he => hnoedges e he)
      simp only [hdbload]
      rw [if_neg (by simp [hloaded])]
    · refine ⟨⟨n.ref, true, true, n.neighbors⟩, ?_, rfl⟩
      show dget (dupd _ _ _) _ = _
      rw [dget_dupd_self]
      show (dget (dupd _ _ _) _).map _ = _
      rw [dget_dupd_self]
      show ((dget s.nodes i).map _).map _ = _
      rw [hn]
      rfl
    · exact dbSetNodeCached_find_self s.dbNodes n.ref.name dbn hdbn

/-- An External Neighbor Source that raises on every fetch. -/
def apiFail : ExtApi := fun _ => .error ()

/-- Witness for C2 at a concrete input: the failing fetch leaves `stW`
untouched, the retry with the recovered source succeeds and persists. -/
theorem loadNeighbors_failure_and_retry_witness :
    load_neighbors (patternFetch apiFail noAuth) stW 0 =
      .error (.extSourceError, stW) ∧
    ∃ s', load_neighbors (patternFetch apiEmpty noAuth) stW 0 = .ok (s', 1, 1) ∧
      (∃ nd, dget s'.nodes 0 = some nd ∧ nd.areNeighborsCached = true) ∧
      dbFindNode s'.dbNodes "A" = some ⟨"A", none, true⟩ ∧
      s'.dbEdges = stW.dbEdges ∧ s'.edges = stW.edges :=
  loadNeighbors_failure_and_retry apiFail apiEmpty noAuth stW 0
    ⟨⟨0, "A", none⟩, false, false, []⟩ ⟨"A", none, false⟩
    rfl rfl rfl rfl rfl rfl
    (fun e he => absurd he (by simp [stW]))
